import Mathlib

/-!
Validation and aggregation of plugin manifests: a shallow embedding of the script
`scripts/generate-registry.js`. JavaScript values are a first-order datatype,
a statement that can throw returns `Except JSError`, the mutable `errors` array and the
loop counters of the source are passed explicitly, and the services of the host
(clock, collation, Unicode case tables, the algorithm of `Array.prototype.sort`, the
files found by `glob` and what `fs.readFileSync` + `yaml.load` make of them) are
parameters.

Console output is not modelled, except that the `errors` array printed by
`validatePluginManifest` is kept in its result.
-/

namespace GenerateRegistry

/-! ## JavaScript values -/

/-- An exception thrown while the script runs. -/
inductive JSError where
  /-- A `TypeError` raised by the engine (reading a property of `undefined`, calling
  something that is not a function, converting an object to a primitive). -/
  | typeError (what : String)
  /-- An error thrown by `fs.readFileSync` or `yaml.load`. -/
  | loadError (what : String)
deriving DecidableEq, Repr

deriving instance DecidableEq for Except

mutual

/-- The values `yaml.load` produces for a document made of scalars, sequences and
mappings, together with `undefined` (an absent property, an empty document).
A number is kept as the text `Number::toString` gives for it (`"0"`, `"1"`, `"0.1"`,
`"1e+21"`, `"NaN"`, `"Infinity"`); `+0` and `-0` both read `"0"`.
Strings are sequences of Unicode scalar values. -/
inductive JSValue where
  | undefined
  | null
  | bool (b : Bool)
  | num (text : String)
  | str (s : String)
  | arr (items : JSArray)
  | obj (fields : JSFields)
deriving DecidableEq

/-- The elements of an array, in index order. -/
inductive JSArray where
  | nil
  | cons (head : JSValue) (tail : JSArray)
deriving DecidableEq

/-- The own properties of a plain object, in insertion order. -/
inductive JSFields where
  | nil
  | cons (key : String) (value : JSValue) (rest : JSFields)
deriving DecidableEq
end

/-- Array literal. -/
def JSArray.ofList : List JSValue → JSArray
  | [] => .nil
  | v :: vs => .cons v (JSArray.ofList vs)

/-- Object literal. -/
def JSFields.ofList : List (String × JSValue) → JSFields
  | [] => .nil
  | (k, v) :: kvs => .cons k v (JSFields.ofList kvs)

/-- Own property `key` of an object, if it has one. -/
def JSFields.lookup : JSFields → String → Option JSValue
  | .nil, _ => none
  | .cons k v rest, key => if k = key then some v else rest.lookup key

/-- The value of the read `object[key]` on a plain object with own properties `fields`,
for a `key` that `Object.prototype` does not define: `undefined` when there is no such
property. -/
def JSFields.get (fields : JSFields) (key : String) : JSValue :=
  (fields.lookup key).getD .undefined

/-- The own property names of an object. -/
def JSFields.keys : JSFields → List String
  | .nil => []
  | .cons k _ rest => k :: rest.keys

/-- The abstract operation `ToBoolean`: `undefined`, `null`, `false`, `0`, `NaN` and `''`
are falsy, every other value (every array and object included) is truthy. -/
def toBoolean : JSValue → Bool
  | .undefined => false
  | .null => false
  | .bool b => b
  | .num text => text != "0" && text != "NaN"
  | .str s => s != ""
  | .arr _ => true
  | .obj _ => true

mutual

/-- The abstract operation `ToString`, which is also what `ToPropertyKey` does on these
values. An array is joined with `,`; a plain object reads `[object Object]`, unless it
has an own property `toString`: a value loaded from YAML is never callable, so
`OrdinaryToPrimitive` finds no method returning a primitive and throws. -/
def toStr : JSValue → Except JSError String
  | .undefined => pure "undefined"
  | .null => pure "null"
  | .bool true => pure "true"
  | .bool false => pure "false"
  | .num text => pure text
  | .str s => pure s
  | .arr items => joinItems items
  | .obj fields =>
      if fields.keys.contains "toString" then
        throw (.typeError "Cannot convert object to primitive value")
      else pure "[object Object]"

/-- An element as `Array.prototype.join` writes it: `undefined` and `null` give `''`. -/
def elementStr : JSValue → Except JSError String
  | .undefined => pure ""
  | .null => pure ""
  | .bool true => pure "true"
  | .bool false => pure "false"
  | .num text => pure text
  | .str s => pure s
  | .arr items => joinItems items
  | .obj fields =>
      if fields.keys.contains "toString" then
        throw (.typeError "Cannot convert object to primitive value")
      else pure "[object Object]"

/-- `Array.prototype.join` with separator `,`. -/
def joinItems : JSArray → Except JSError String
  | .nil => pure ""
  | .cons v rest => do
      let first ← elementStr v
      let others ← joinRest rest
      pure (first ++ others)

/-- The part of `join` after the first element: a `,` before each element. -/
def joinRest : JSArray → Except JSError String
  | .nil => pure ""
  | .cons v rest => do
      let next ← elementStr v
      let others ← joinRest rest
      pure ("," ++ next ++ others)
end

/-- Property read `value[key]` / `value.key`, for the property names the script reads from
a manifest or from its `provides` (`apiVersion`, `name`, `version`, `category`,
`description`, `author`, `displayName`, `homepage`, `license`, `provides`, `requires`,
`tags`, `icon`, `documentation`, `frameworks`, `service_kinds`). None of them is defined
by a built-in prototype, so only an object can hold one; reading from `undefined` or
`null` throws. -/
def getProp (value : JSValue) (key : String) : Except JSError JSValue :=
  match value with
  | .undefined => throw (.typeError ("Cannot read properties of undefined (reading " ++ key ++ ")"))
  | .null => throw (.typeError ("Cannot read properties of null (reading " ++ key ++ ")"))
  | .obj fields => pure (fields.get key)
  | _ => pure .undefined

/-! ## Configuration (lines 8-50) -/

/-- Source constant `REPOSITORY_URL`. -/
def REPOSITORY_URL : String := "https://github.com/Arfni/arfni-plugins"

/-- A value of the table `CATEGORIES`. -/
structure CategoryInfo where
  name : String
  description : String
deriving DecidableEq, Repr

/-- Source constant `CATEGORIES`, in the order of the object literal. -/
def CATEGORIES : List (String × CategoryInfo) :=
  [ ("framework", ⟨"Framework Plugins", "Build and containerize applications"⟩),
    ("database", ⟨"Database Plugins", "Persistent data storage solutions"⟩),
    ("cache", ⟨"Cache Plugins", "High-speed in-memory data stores"⟩),
    ("message_queue", ⟨"Message Queue Plugins", "Asynchronous messaging between services"⟩),
    ("proxy", ⟨"Proxy Plugins", "Reverse proxies and load balancers"⟩),
    ("cicd", ⟨"CI/CD Plugins", "Integrate deployment pipelines"⟩),
    ("orchestration", ⟨"Orchestration Plugins", "Deploy to different platforms"⟩),
    ("infrastructure",
      ⟨"Infrastructure Plugins", "Infrastructure as code and configuration management"⟩) ]

/-- The expression `Object.keys(CATEGORIES)`. -/
def categoryKeys : List String := CATEGORIES.map Prod.fst

/-- The properties a plain object inherits from `Object.prototype`. Each holds a function,
and `__proto__` reads the prototype itself: all are truthy. -/
def objectPrototypeProps : List String :=
  [ "constructor", "__defineGetter__", "__defineSetter__", "hasOwnProperty",
    "__lookupGetter__", "__lookupSetter__", "isPrototypeOf", "propertyIsEnumerable",
    "toString", "valueOf", "__proto__", "toLocaleString" ]

/-- Truthiness of `CATEGORIES[key]`: an own property of the table holds an object, a
property inherited from `Object.prototype` holds a function (or the prototype), and any
other read gives `undefined`. -/
def categoriesHas (key : String) : Bool :=
  categoryKeys.contains key || objectPrototypeProps.contains key

/-! ## Regular expressions of the validator -/

/-- The class `\d`: the ten ASCII digits. -/
def digit : RegularExpression Char :=
  .char '0' + .char '1' + .char '2' + .char '3' + .char '4' +
  .char '5' + .char '6' + .char '7' + .char '8' + .char '9'

/-- The pattern `\d+`. -/
def digits : RegularExpression Char := digit * .star digit

/-- The pattern `/^v\d+\.\d+$/`; both anchors are present and there is no `m` flag, so
it matches when the whole string is in the language. -/
def apiVersionPattern : RegularExpression Char := .char 'v' * digits * .char '.' * digits

/-- The pattern `/^\d+\.\d+\.\d+$/`. -/
def versionPattern : RegularExpression Char := digits * .char '.' * digits * .char '.' * digits

/-- The call `value.match(pattern)` for one of the two anchored patterns, as a truth value
(`null` when there is no match, an array otherwise). Only a string has the method:
on any other truthy value the call throws. -/
def jsMatch (value : JSValue) (pattern : RegularExpression Char) : Except JSError Bool :=
  match value with
  | .str s => pure (pattern.rmatch s.toList)
  | .undefined => throw (.typeError "Cannot read properties of undefined (reading match)")
  | .null => throw (.typeError "Cannot read properties of null (reading match)")
  | _ => throw (.typeError "match is not a function")

/-! ## `validatePluginManifest` (lines 55-96) -/

/-- Source constant `requiredFields` (line 59). -/
def requiredFields : List String :=
  ["apiVersion", "name", "version", "category", "description", "author"]

/-- The message pushed at line 62. -/
def missingFieldMessage (field : String) : String := "Missing required field: " ++ field

/-- The message pushed at line 68. -/
def apiVersionMessage (apiVersion : String) : String :=
  "Invalid apiVersion format: " ++ apiVersion ++ " (expected format: v0.1)"

/-- The message pushed at line 73. -/
def categoryMessage (category : String) : String :=
  "Invalid category: " ++ category ++ ". Must be one of: " ++ ", ".intercalate categoryKeys

/-- The message pushed at line 78. -/
def versionMessage (version : String) : String :=
  "Invalid version format: " ++ version ++ " (expected format: 1.0.0)"

/-- The message pushed at line 84. -/
def providesMessage : String := "provides must contain either frameworks or service_kinds"

/-- Lines 58-64: the loop over `requiredFields`, started with `errors` as it stands. -/
def checkRequiredFields (manifest : JSValue) (errors : List String) :
    Except JSError (List String) :=
  requiredFields.foldlM
    (fun errors field => do
      let value ← getProp manifest field
      if !toBoolean value then pure (errors ++ [missingFieldMessage field]) else pure errors)
    errors

/-- Lines 66-69. -/
def checkApiVersion (manifest : JSValue) (errors : List String) :
    Except JSError (List String) := do
  let apiVersion ← getProp manifest "apiVersion"
  if toBoolean apiVersion then
    let matched ← jsMatch apiVersion apiVersionPattern
    if !matched then
      let text ← toStr apiVersion
      pure (errors ++ [apiVersionMessage text])
    else pure errors
  else pure errors

/-- Lines 71-74. -/
def checkCategory (manifest : JSValue) (errors : List String) :
    Except JSError (List String) := do
  let category ← getProp manifest "category"
  if toBoolean category then
    let key ← toStr category
    if !categoriesHas key then
      let text ← toStr category
      pure (errors ++ [categoryMessage text])
    else pure errors
  else pure errors

/-- Lines 76-79. -/
def checkVersion (manifest : JSValue) (errors : List String) :
    Except JSError (List String) := do
  let version ← getProp manifest "version"
  if toBoolean version then
    let matched ← jsMatch version versionPattern
    if !matched then
      let text ← toStr version
      pure (errors ++ [versionMessage text])
    else pure errors
  else pure errors

/-- Lines 81-86. -/
def checkProvides (manifest : JSValue) (errors : List String) :
    Except JSError (List String) := do
  let provides ← getProp manifest "provides"
  if toBoolean provides then
    let frameworks ← getProp provides "frameworks"
    if !toBoolean frameworks then
      let serviceKinds ← getProp provides "service_kinds"
      if !toBoolean serviceKinds then pure (errors ++ [providesMessage]) else pure errors
    else pure errors
  else pure errors

/-- What a call of `validatePluginManifest` that returns leaves behind: the boolean it
returns and the `errors` array, which it prints line by line when it is not empty. -/
structure Verdict where
  valid : Bool
  violations : List String
deriving DecidableEq, Repr

/-- Source function `validatePluginManifest`. On the valid path the template literal of
line 94 converts `manifest.name` to a string. -/
def validatePluginManifest (manifest : JSValue) (filePath : String) :
    Except JSError Verdict := do
  let _ := filePath
  let errors ← checkRequiredFields manifest []
  let errors ← checkApiVersion manifest errors
  let errors ← checkCategory manifest errors
  let errors ← checkVersion manifest errors
  let errors ← checkProvides manifest errors
  if errors.length > 0 then
    pure { valid := false, violations := errors }
  else
    let name ← getProp manifest "name"
    let _ ← toStr name
    pure { valid := true, violations := errors }

/-! ## The host -/

/-- What a comparison sort does to an array of `n` elements: it calls the comparator on
the elements at two positions of the array as it stands, goes on according to the number
returned, exchanges the elements at two positions, and stops. The standard leaves this
sequence to the engine ("an implementation-defined sequence of calls to SortCompare");
whatever it is, the array ends as a rearrangement of itself. -/
inductive SortPlan (n : Nat) where
  | done
  | compare (a b : Fin n) (next : Int → SortPlan n)
  | swap (i j : Fin n) (next : SortPlan n)

/-- A plan carried out on an array, given as the element at each position: the call
`comparefn(array[a], array[b])` may throw, which ends the sort. -/
def SortPlan.run {α ε : Type} {n : Nat} (compare : α → α → Except ε Int) :
    SortPlan n → (Fin n → α) → Except ε (Fin n → α)
  | .done, array => pure array
  | .compare a b next, array => do
      let order ← compare (array a) (array b)
      (next order).run compare array
  | .swap i j next, array =>
      next.run compare (fun k => if k = i then array j else if k = j then array i else array k)

/-- The services of the host the script relies on. -/
structure Host where
  /-- The text `new Date().toISOString()` gives, by the number of earlier readings. -/
  clock : Nat → String
  /-- The method `String.prototype.localeCompare` in the default locale. -/
  localeCompare : String → String → Int
  /-- The method `String.prototype.toUpperCase` on one code unit outside ASCII. -/
  unicodeUpper : Char → String
  /-- The algorithm of `Array.prototype.sort` in the engine, for each length of array. -/
  sortPlan : (n : Nat) → SortPlan n

/-- One path returned by `glob` (line 105). -/
structure PluginFile where
  /-- The absolute path of the `plugin.yaml` file. -/
  filePath : String
  /-- The value of `path.relative(path.join(__dirname, '..'), path.dirname(filePath))`
  (line 134), with the separators of the platform. -/
  relativePath : String
  /-- What lines 120-121 give: the document `yaml.load` returns, or the error thrown by
  `fs.readFileSync` or `yaml.load`. -/
  loaded : Except JSError JSValue

/-! ## Building a registry entry (lines 133-190 of `scanPlugins`) -/

/-- The field `repository` of an entry (lines 158-162). -/
structure RepositoryInfo where
  owner : String
  repo : String
  branch : String
deriving DecidableEq, Repr

/-- The object `registryEntry` (lines 143-190). A field copied from the manifest keeps
the manifest's value, whatever its type; `documentation` is `none` when the object has
no such property. -/
structure RegistryEntry where
  id : JSValue
  name : JSValue
  category : JSValue
  version : JSValue
  description : JSValue
  author : JSValue
  homepage : JSValue
  license : JSValue
  path : String
  repository : RepositoryInfo
  provides : JSValue
  requires : JSValue
  tags : JSValue
  icon : JSValue
  downloads : Nat
  stars : Nat
  verified : Bool
  status : String
  last_updated : String
  documentation : Option JSValue
deriving DecidableEq

/-- The operator `a || b` on values. -/
def jsOr (a b : JSValue) : JSValue := if toBoolean a then a else b

/-- The method `toUpperCase` on a string of one code unit: an ASCII letter is mapped here,
a code unit outside ASCII by the case tables of the host. -/
def toUpperCase (host : Host) (c : Char) : String :=
  if c.val < 128 then String.singleton c.toUpper else host.unicodeUpper c

/-- The expression `name.charAt(0).toUpperCase() + name.slice(1)` on a string. `charAt`
and `slice` count UTF-16 code units: when the first character needs two of them,
`charAt(0)` is a lone surrogate, which has no upper case, and the sum is `name` again. -/
def capitalize (host : Host) (name : String) : String :=
  match name.data with
  | [] => ""
  | c :: rest => if c.val < 65536 then toUpperCase host c ++ String.mk rest else name

/-- Line 146, the value of the property `name`. Only a string has the method `charAt`. -/
def entryName (host : Host) (manifest : JSValue) : Except JSError JSValue := do
  let displayName ← getProp manifest "displayName"
  if toBoolean displayName then pure displayName
  else
    let name ← getProp manifest "name"
    match name with
    | .str s => pure (.str (capitalize host s))
    | .undefined => throw (.typeError "Cannot read properties of undefined (reading charAt)")
    | .null => throw (.typeError "Cannot read properties of null (reading charAt)")
    | _ => throw (.typeError "charAt is not a function")

/-- Line 135: `relativePath.replace(/\\/g, '/')`. -/
def normalizePath (relativePath : String) : String :=
  relativePath.map (fun c => if c = '\\' then '/' else c)

/-- The default of `provides` (lines 165-168). -/
def defaultProvides : JSValue :=
  .obj (.ofList [("frameworks", .arr .nil), ("service_kinds", .arr .nil)])

/-- Lines 133-190: the entry built for a manifest found at `relativePath`, when the clock
reads `now`. -/
def buildRegistryEntry (host : Host) (manifest : JSValue) (relativePath : String)
    (now : String) : Except JSError RegistryEntry := do
  let pluginPath := normalizePath relativePath
  let id ← getProp manifest "name"
  let name ← entryName host manifest
  let category ← getProp manifest "category"
  let version ← getProp manifest "version"
  let description ← getProp manifest "description"
  let author ← getProp manifest "author"
  let homepage ← getProp manifest "homepage"
  let license ← getProp manifest "license"
  let provides ← getProp manifest "provides"
  let requires ← getProp manifest "requires"
  let tags ← getProp manifest "tags"
  let icon ← getProp manifest "icon"
  let documentation ← getProp manifest "documentation"
  pure {
    id := id
    name := name
    category := category
    version := version
    description := description
    author := author
    homepage := jsOr homepage (.str (REPOSITORY_URL ++ "/tree/main/" ++ pluginPath))
    license := jsOr license (.str "MIT")
    path := pluginPath
    repository := { owner := "Arfni", repo := "arfni-plugins", branch := "main" }
    provides := jsOr provides defaultProvides
    requires := jsOr requires (.obj .nil)
    tags := jsOr tags (.arr .nil)
    icon := jsOr icon (.str "icon.png")
    downloads := 0
    stars := 0
    verified := true
    status := "stable"
    last_updated := now
    documentation := if toBoolean documentation then some documentation else none }

/-! ## `scanPlugins` (lines 101-213) -/

/-- The variables of the loop of `scanPlugins`, and the number of clock readings so far. -/
structure ScanState where
  plugins : List RegistryEntry
  validCount : Nat
  invalidCount : Nat
  clockReads : Nat
deriving DecidableEq

/-- One turn of the loop (lines 117-198) on `file`; `validateOnly` is the constant
`VALIDATE_ONLY`. An exception thrown anywhere in the `try` block lands in the `catch`
clause, which counts the file as invalid; the counters already changed stay changed. -/
def processFile (host : Host) (validateOnly : Bool) (state : ScanState) (file : PluginFile) :
    ScanState :=
  match file.loaded with
  | .error _ => { state with invalidCount := state.invalidCount + 1 }
  | .ok manifest =>
    match validatePluginManifest manifest file.filePath with
    | .error _ => { state with invalidCount := state.invalidCount + 1 }
    | .ok verdict =>
      let counted : ScanState :=
        if !verdict.valid then { state with invalidCount := state.invalidCount + 1 }
        else { state with validCount := state.validCount + 1 }
      if !verdict.valid && validateOnly then counted
      else
        match buildRegistryEntry host manifest file.relativePath (host.clock state.clockReads) with
        | .error _ => { counted with invalidCount := counted.invalidCount + 1 }
        | .ok entry =>
          { counted with
            plugins := counted.plugins ++ [entry]
            clockReads := counted.clockReads + 1 }

/-- The loop of lines 113-198 over the files found. -/
def scanLoop (host : Host) (validateOnly : Bool) (files : List PluginFile) : ScanState :=
  files.foldl (processFile host validateOnly)
    { plugins := [], validCount := 0, invalidCount := 0, clockReads := 0 }

/-- A run that does not reach the end of a function: the process exits with a status, or
an exception propagates. -/
inductive Abort where
  | exit (code : Nat)
  | thrown (error : JSError)
deriving DecidableEq, Repr

/-- Source function `scanPlugins`, given the files `glob` found. With `VALIDATE_ONLY` it
ends the process (lines 204-210); otherwise it returns `plugins` (here with the counters
of the summary). -/
def scanPlugins (host : Host) (validateOnly : Bool) (files : List PluginFile) :
    Except Abort ScanState :=
  let state := scanLoop host validateOnly files
  if validateOnly then
    if state.invalidCount > 0 then throw (.exit 1) else throw (.exit 0)
  else pure state

/-! ## `generateCategoryStats` (lines 218-237) -/

/-- A value of the object `categories`: a catalog value with its `count`. -/
structure CategoryStats where
  name : String
  description : String
  count : Nat
deriving DecidableEq, Repr

/-- The statement `categories[key].count++` for an own property `key`. -/
def incrementCount (key : String) :
    List (String × CategoryStats) → List (String × CategoryStats)
  | [] => []
  | (k, stats) :: rest =>
      if k = key then (k, { stats with count := stats.count + 1 }) :: rest
      else (k, stats) :: incrementCount key rest

/-- The body of the loop of lines 230-234. A `category` naming a property inherited from
`Object.prototype` passes the test of line 231, and the increment then lands on that
built-in object, not on `categories`. -/
def countPlugin (categories : List (String × CategoryStats)) (plugin : RegistryEntry) :
    Except JSError (List (String × CategoryStats)) := do
  let key ← toStr plugin.category
  if (categories.map Prod.fst).contains key then pure (incrementCount key categories)
  else if objectPrototypeProps.contains key then pure categories
  else pure categories

/-- Source function `generateCategoryStats`. -/
def generateCategoryStats (plugins : List RegistryEntry) :
    Except JSError (List (String × CategoryStats)) :=
  let categories : List (String × CategoryStats) :=
    CATEGORIES.map (fun entry =>
      (entry.1, { name := entry.2.name, description := entry.2.description, count := 0 }))
  plugins.foldlM countPlugin categories

/-! ## `generateRegistry` (lines 242-292) -/

/-- The comparator of line 260, `a.name.localeCompare(b.name)`: the receiver must be a
string, the argument is converted to one. -/
def compareNames (host : Host) (a b : RegistryEntry) : Except JSError Int :=
  match a.name with
  | .str s => do
      let other ← toStr b.name
      pure (host.localeCompare s other)
  | .undefined =>
      throw (.typeError "Cannot read properties of undefined (reading localeCompare)")
  | .null => throw (.typeError "Cannot read properties of null (reading localeCompare)")
  | _ => throw (.typeError "localeCompare is not a function")

/-- The method `Array.prototype.sort` with a comparator, on the engine of the host: the
plan for the length of the array is carried out on it. An exception of the comparator
ends the sort. -/
def arraySort {α ε : Type} (host : Host) (compare : α → α → Except ε Int) (array : List α) :
    Except ε (List α) :=
  ((host.sortPlan array.length).run compare array.get).map List.ofFn

/-- The field `stats` of the registry (lines 262-267). -/
structure RegistryStats where
  total_plugins : Nat
  total_downloads : Nat
  categories_count : Nat
  last_sync : String
deriving DecidableEq, Repr

/-- The object `registry` (lines 252-268). -/
structure Registry where
  schema_version : String
  version : String
  last_updated : String
  repository : String
  categories : List (String × CategoryStats)
  plugins : List RegistryEntry
  stats : RegistryStats
deriving DecidableEq

/-- Lines 248-268 of `generateRegistry`: the registry assembled from the entries
`scanPlugins` returned, the clock having been read `clockReads` times. The sort is in
place: `plugins.length` and `plugins.reduce` at lines 263-264 read the sorted array. -/
def assembleRegistry (host : Host) (plugins : List RegistryEntry) (clockReads : Nat) :
    Except JSError Registry := do
  let categories ← generateCategoryStats plugins
  let lastUpdated := host.clock clockReads
  let sorted ← arraySort host (compareNames host) plugins
  pure {
    schema_version := "1.0.0"
    version := "1.0.0"
    last_updated := lastUpdated
    repository := REPOSITORY_URL
    categories := categories
    plugins := sorted
    stats := {
      total_plugins := sorted.length
      total_downloads := sorted.foldl (fun sum p => sum + p.downloads) 0
      categories_count := categoryKeys.length
      last_sync := host.clock (clockReads + 1) } }

/-- Source function `generateRegistry`: the registry it returns is the one line 277 has
written to `REGISTRY_FILE`. The file system is taken to accept the write. -/
def generateRegistry (host : Host) (validateOnly : Bool) (files : List PluginFile) :
    Except Abort Registry := do
  let scan ← scanPlugins host validateOnly files
  match assembleRegistry host scan.plugins scan.clockReads with
  | .error e => throw (.thrown e)
  | .ok registry => pure registry

/-- What a run of the script leaves: its exit status and the registry file it wrote. -/
structure RunResult where
  exitCode : Nat
  written : Option Registry
deriving DecidableEq

/-- Main execution (lines 294-305). -/
def runScript (host : Host) (validateOnly : Bool) (files : List PluginFile) : RunResult :=
  match generateRegistry host validateOnly files with
  | .ok registry => { exitCode := 0, written := some registry }
  | .error (.exit code) => { exitCode := code, written := none }
  | .error (.thrown _) => { exitCode := 1, written := none }

/-! ## Vocabulary of the statements -/

/-- The decimal digits. -/
def decimalDigits : List Char := ['0', '1', '2', '3', '4', '5', '6', '7', '8', '9']

/-- The form `v<digits>.<digits>`: the letter `v`, one or more decimal digits, a dot,
one or more decimal digits, and nothing else. -/
def IsApiVersionForm (s : String) : Prop :=
  ∃ major minor : List Char, major ≠ [] ∧ minor ≠ [] ∧
    (∀ c ∈ major, c ∈ decimalDigits) ∧ (∀ c ∈ minor, c ∈ decimalDigits) ∧
    s.toList = 'v' :: (major ++ '.' :: minor)

/-- The form `<digits>.<digits>.<digits>`: three runs of one or more decimal digits
separated by dots, and nothing else. -/
def IsVersionForm (s : String) : Prop :=
  ∃ major minor patch : List Char, major ≠ [] ∧ minor ≠ [] ∧ patch ≠ [] ∧
    (∀ c ∈ major, c ∈ decimalDigits) ∧ (∀ c ∈ minor, c ∈ decimalDigits) ∧
    (∀ c ∈ patch, c ∈ decimalDigits) ∧
    s.toList = major ++ '.' :: (minor ++ '.' :: patch)

/-- A required field is missing from a manifest when reading it gives a falsy value. -/
def isMissing (fields : JSFields) (field : String) : Bool := !toBoolean (fields.get field)

/-- The first nine characters of a message: they tell the five kinds of violation apart. -/
def messageTag (message : String) : List Char := message.data.take 9

/-- A value that is a string, or falsy (an absent property among them). -/
def isStringOrFalsy : JSValue → Bool
  | .str _ => true
  | value => !toBoolean value

/-- The catalog with `count key` written on each key: the object `categories` when
`count key` entries have been counted under `key`. -/
def annotate (count : String → Nat) : List (String × CategoryStats) :=
  CATEGORIES.map (fun entry =>
    (entry.1, { name := entry.2.name, description := entry.2.description, count := count entry.1 }))

/-- The number of entries whose `category`, as the property key line 231 looks up, is
`key`. -/
def countInCategory (plugins : List RegistryEntry) (key : String) : Nat :=
  plugins.countP (fun plugin => decide (toStr plugin.category = .ok key))

/-! ## Sample inputs -/

/-- The six required fields of a manifest that passes every rule. -/
def validFields : List (String × JSValue) :=
  [ ("apiVersion", .str "v0.1"), ("name", .str "postgres"), ("version", .str "1.0.0"),
    ("category", .str "database"), ("description", .str "PostgreSQL database"),
    ("author", .str "Arfni") ]

/-- The manifest `validFields` with further properties. -/
def manifestWith (extra : List (String × JSValue)) : JSFields :=
  .ofList (validFields ++ extra)

/-- The manifest `validFields` with its `category` replaced. -/
def manifestWithCategory (category : JSValue) : JSFields :=
  .ofList [ ("apiVersion", .str "v0.1"), ("name", .str "postgres"), ("version", .str "1.0.0"),
    ("category", category), ("description", .str "PostgreSQL database"),
    ("author", .str "Arfni") ]

/-- The manifest `validFields` with its `apiVersion` replaced. -/
def manifestWithApiVersion (apiVersion : JSValue) : JSFields :=
  .ofList [ ("apiVersion", apiVersion), ("name", .str "postgres"), ("version", .str "1.0.0"),
    ("category", .str "database"), ("description", .str "PostgreSQL database"),
    ("author", .str "Arfni") ]

/-- The manifest `validFields` without its `name`. -/
def manifestWithoutName : JSFields :=
  .ofList [ ("apiVersion", .str "v0.1"), ("version", .str "1.0.0"),
    ("category", .str "database"), ("description", .str "PostgreSQL database"),
    ("author", .str "Arfni") ]

/-- Comparison of two strings by code points, with the sign convention of
`localeCompare`. -/
def compareCodePoints : List Char → List Char → Int
  | [], [] => 0
  | [], _ :: _ => -1
  | _ :: _, [] => 1
  | a :: s, b :: t =>
      if a.toNat < b.toNat then -1
      else if b.toNat < a.toNat then 1
      else compareCodePoints s t

/-- The exchanges that bring the element at `position` down by `count` places, the
elements in between moving up by one. -/
def moveDown (n : Nat) : Nat → Nat → SortPlan n → SortPlan n
  | 0, _, next => next
  | count + 1, position, next =>
      if h : position < n ∧ position - 1 < n then
        .swap ⟨position, h.1⟩ ⟨position - 1, h.2⟩ (moveDown n count (position - 1) next)
      else next

/-- The binary search of V8's `BinaryInsertionSort` for the place of the element at
`pivot` among the positions `left` to `right`: it calls `comparefn(pivot, array[mid])`
and goes left when the result is negative. -/
def findInsertion (n : Nat) (pivot : Nat) :
    Nat → Nat → Nat → (Nat → SortPlan n) → SortPlan n
  | 0, left, _, k => k left
  | fuel + 1, left, right, k =>
      if left < right then
        if h : pivot < n ∧ left + (right - left) / 2 < n then
          .compare ⟨pivot, h.1⟩ ⟨left + (right - left) / 2, h.2⟩ (fun order =>
            if order < 0 then findInsertion n pivot fuel left (left + (right - left) / 2) k
            else findInsertion n pivot fuel (left + (right - left) / 2 + 1) right k)
        else k left
      else k left

/-- The loop of V8's `BinaryInsertionSort` from position `start`, over `remaining`
elements: each is searched a place among the earlier ones and moved there. -/
def insertFrom (n : Nat) : Nat → Nat → SortPlan n
  | 0, _ => .done
  | remaining + 1, start =>
      findInsertion n start (start + 1) 0 start (fun left =>
        moveDown n (start - left) start (insertFrom n remaining (start + 1)))

/-- The loop of V8's `CountAndMakeRun` from position `idx`: it calls
`comparefn(array[idx], array[idx - 1])` until the run ends, and goes on with its length. -/
def extendRun (n : Nat) (descending : Bool) : Nat → Nat → (Nat → SortPlan n) → SortPlan n
  | 0, idx, k => k idx
  | fuel + 1, idx, k =>
      if h : idx < n ∧ idx - 1 < n then
        .compare ⟨idx, h.1⟩ ⟨idx - 1, h.2⟩ (fun order =>
          if descending then
            if order ≥ 0 then k idx else extendRun n descending fuel (idx + 1) k
          else
            if order < 0 then k idx else extendRun n descending fuel (idx + 1) k)
      else k idx

/-- The exchanges of V8's `ReverseRange` on the positions `low` to `high`. -/
def reverseRange (n : Nat) : Nat → Nat → Nat → SortPlan n → SortPlan n
  | 0, _, _, next => next
  | fuel + 1, low, high, next =>
      if h : low < high ∧ high < n then
        .swap ⟨low, by omega⟩ ⟨high, h.2⟩ (reverseRange n fuel (low + 1) (high - 1) next)
      else next

/-- The sort of V8 (Node.js) on an array of fewer than 64 elements, which it treats as
one run: nothing is compared when there are fewer than two elements; otherwise the
initial run is found, starting with `comparefn(array[1], array[0])`, reversed when it is
strictly descending, and the other elements are inserted into it by binary search. The
later element is always the first argument of the comparator. (From 64 elements on V8
also merges runs; this plan goes on inserting.) -/
def binaryInsertionPlan (n : Nat) : SortPlan n :=
  if h : 1 < n then
    .compare ⟨1, h⟩ ⟨0, by omega⟩ (fun order =>
      extendRun n (decide (order < 0)) n 2 (fun runLength =>
        if order < 0 then
          reverseRange n n 0 (runLength - 1) (insertFrom n (n - runLength) runLength)
        else insertFrom n (n - runLength) runLength))
  else .done

/-- A host: a clock that stands still, comparison of strings by code points, no upper
case outside ASCII, and the sort of V8. -/
def sampleHost : Host where
  clock := fun _ => "2024-01-01T00:00:00.000Z"
  localeCompare := fun a b => compareCodePoints a.data b.data
  unicodeUpper := fun c => String.singleton c
  sortPlan := binaryInsertionPlan

/-- A file under `plugins/database/postgres` holding the manifest `fields`. -/
def postgresFile (fields : JSFields) : PluginFile where
  filePath := "/repo/plugins/database/postgres/plugin.yaml"
  relativePath := "plugins/database/postgres"
  loaded := .ok (.obj fields)

/-- The entry the builder gives the manifest `validFields`, with `name` and `category`
replaced. -/
def sampleEntry (name category : String) : RegistryEntry where
  id := .str "postgres"
  name := .str name
  category := .str category
  version := .str "1.0.0"
  description := .str "PostgreSQL database"
  author := .str "Arfni"
  homepage := .str "https://github.com/Arfni/arfni-plugins/tree/main/plugins/database/postgres"
  license := .str "MIT"
  path := "plugins/database/postgres"
  repository := { owner := "Arfni", repo := "arfni-plugins", branch := "main" }
  provides := defaultProvides
  requires := .obj .nil
  tags := .arr .nil
  icon := .str "icon.png"
  downloads := 0
  stars := 0
  verified := true
  status := "stable"
  last_updated := "2024-01-01T00:00:00.000Z"
  documentation := none

/-- Three entries, out of order by name. -/
def sampleEntries : List RegistryEntry :=
  [sampleEntry "Postgres" "database", sampleEntry "Redis" "cache",
    sampleEntry "Mysql" "database"]

/-- A file whose manifest parsed and passed validation: `validatePluginManifest` returned
`true` for it. -/
def passesValidation (file : PluginFile) : Bool :=
  match file.loaded with
  | .error _ => false
  | .ok manifest =>
    match validatePluginManifest manifest file.filePath with
    | .error _ => false
    | .ok verdict => verdict.valid

/-- A manifest with several faults: two required fields are missing, `apiVersion` and
`version` are ill-formed, the category is unknown and `provides` is empty. -/
def faultyManifest : JSFields :=
  .ofList [ ("apiVersion", .str "0.1"), ("name", .str "postgres"), ("version", .str "1.0"),
    ("category", .str "unknown_cat"), ("provides", .obj .nil) ]

/-- The entry `entry` was built from the manifest of `file`, which parsed and passed
validation. -/
def BuiltFromValid (host : Host) (file : PluginFile) (entry : RegistryEntry) : Prop :=
  ∃ manifest verdict now, file.loaded = .ok manifest ∧
    validatePluginManifest manifest file.filePath = .ok verdict ∧ verdict.valid = true ∧
    buildRegistryEntry host manifest file.relativePath now = .ok entry

/-- Two files under `plugins/database`: the manifest `validFields`, and a manifest
without `name`. -/
def twoFiles : List PluginFile :=
  [ postgresFile (manifestWith []),
    { filePath := "/repo/plugins/database/mysql/plugin.yaml"
      relativePath := "plugins/database/mysql"
      loaded := .ok (.obj manifestWithoutName) } ]

/-- An entry whose `category`, as a property key, is a key of the catalog. -/
def hasCatalogCategory (plugin : RegistryEntry) : Bool :=
  match toStr plugin.category with
  | .ok key => categoryKeys.contains key
  | .error _ => false

/-- The manifest `validFields` with the number 123 as `name`. -/
def manifestWithNumericName : JSFields :=
  .ofList [ ("apiVersion", .str "v0.1"), ("name", .num "123"), ("version", .str "1.0.0"),
    ("category", .str "database"), ("description", .str "PostgreSQL database"),
    ("author", .str "Arfni") ]

/-- An entry with its `last_updated` erased. -/
def eraseEntryTime (entry : RegistryEntry) : RegistryEntry :=
  { entry with last_updated := "" }

/-- A registry with its timestamps erased: the `last_updated` of the document and of
every entry, and `stats.last_sync`. -/
def eraseTimes (registry : Registry) : Registry :=
  { registry with
    last_updated := ""
    plugins := registry.plugins.map eraseEntryTime
    stats := { registry.stats with last_sync := "" } }

/-- The variables of the scan with the timestamps of the entries erased. -/
def eraseScanTimes (state : ScanState) : ScanState :=
  { state with plugins := state.plugins.map eraseEntryTime }

/-- A host whose clock reads the number of earlier readings, as a run of strokes. -/
def tickingHost : Host where
  clock := fun n => String.mk (List.replicate n '|')
  localeCompare := fun a b => compareCodePoints a.data b.data
  unicodeUpper := fun c => String.singleton c
  sortPlan := binaryInsertionPlan

/-- The manifest `validFields` without its `name` and with the number 1 as `version`
(YAML `version: 1.0`). -/
def manifestNumericVersionNoName : JSFields :=
  .ofList [ ("apiVersion", .str "v0.1"), ("version", .num "1"),
    ("category", .str "database"), ("description", .str "PostgreSQL database"),
    ("author", .str "Arfni") ]

/-- The manifest `validFields` named `zeta`: the builder names its entry `Zeta`. -/
def zetaManifest : JSFields :=
  .ofList [ ("apiVersion", .str "v0.1"), ("name", .str "zeta"), ("version", .str "1.0.0"),
    ("category", .str "database"), ("description", .str "PostgreSQL database"),
    ("author", .str "Arfni") ]

/-- The manifest `validFields` named `alpha`, with the number 123 as `displayName` (YAML
`displayName: 123`): no rule of the validator reads `displayName`, and the builder takes
it as the name of the entry. -/
def numericDisplayNameManifest : JSFields :=
  .ofList [ ("apiVersion", .str "v0.1"), ("name", .str "alpha"), ("version", .str "1.0.0"),
    ("category", .str "database"), ("description", .str "PostgreSQL database"),
    ("author", .str "Arfni"), ("displayName", .num "123") ]

/-- The file of `zetaManifest`. -/
def zetaFile : PluginFile where
  filePath := "/repo/plugins/database/zeta/plugin.yaml"
  relativePath := "plugins/database/zeta"
  loaded := .ok (.obj zetaManifest)

/-- The file of `numericDisplayNameManifest`. -/
def numericDisplayNameFile : PluginFile where
  filePath := "/repo/plugins/database/alpha/plugin.yaml"
  relativePath := "plugins/database/alpha"
  loaded := .ok (.obj numericDisplayNameManifest)

/-- The host `host` with another clock: its other services are unchanged. -/
@[reducible] def withClock (host : Host) (clock : Nat → String) : Host :=
  { host with clock := clock }

/-! ## Property reads and the loop over the required fields -/

theorem getProp_obj (fields : JSFields) (key : String) :
    getProp (.obj fields) key = .ok (fields.get key) := rfl

theorem foldlM_push {ε α β : Type} (step : List β → α → Except ε (List β)) (p : α → Bool)
    (m : α → β) (h : ∀ e a, step e a = .ok (if p a then e ++ [m a] else e)) :
    ∀ (l : List α) (e : List β), l.foldlM step e = .ok (e ++ (l.filter p).map m) := by
  intro l
  induction l with
  | nil => intro e; simp [pure, Except.pure]
  | cons a l ih =>
    intro e
    rw [List.foldlM_cons, h]
    simp only [bind, Except.bind]
    rw [ih]
    cases hp : p a <;> simp [List.filter_cons, hp]

theorem checkRequiredFields_obj (fields : JSFields) (errors : List String) :
    checkRequiredFields (.obj fields) errors =
      .ok (errors ++ (requiredFields.filter (isMissing fields)).map missingFieldMessage) := by
  unfold checkRequiredFields
  apply foldlM_push
  intro e a
  simp only [getProp_obj, bind, Except.bind, pure, Except.pure, isMissing]
  split <;> rfl

/-! ## The four format rules on an object -/

theorem checkApiVersion_falsy (fields : JSFields) (errors : List String)
    (h : toBoolean (fields.get "apiVersion") = false) :
    checkApiVersion (.obj fields) errors = .ok errors := by
  simp [checkApiVersion, getProp_obj, bind, Except.bind, h, pure, Except.pure]

theorem checkApiVersion_str (fields : JSFields) (errors : List String) (s : String)
    (h : fields.get "apiVersion" = .str s) (hs : s ≠ "") :
    checkApiVersion (.obj fields) errors =
      .ok (if apiVersionPattern.rmatch s.toList then errors
           else errors ++ [apiVersionMessage s]) := by
  have ht : toBoolean (.str s) = true := by simp [toBoolean, hs]
  simp only [checkApiVersion, getProp_obj, bind, Except.bind, h, ht, pure, Except.pure,
    if_true, jsMatch, toStr]
  cases apiVersionPattern.rmatch s.toList <;> simp

theorem checkVersion_falsy (fields : JSFields) (errors : List String)
    (h : toBoolean (fields.get "version") = false) :
    checkVersion (.obj fields) errors = .ok errors := by
  simp [checkVersion, getProp_obj, bind, Except.bind, h, pure, Except.pure]

theorem checkVersion_str (fields : JSFields) (errors : List String) (s : String)
    (h : fields.get "version" = .str s) (hs : s ≠ "") :
    checkVersion (.obj fields) errors =
      .ok (if versionPattern.rmatch s.toList then errors
           else errors ++ [versionMessage s]) := by
  have ht : toBoolean (.str s) = true := by simp [toBoolean, hs]
  simp only [checkVersion, getProp_obj, bind, Except.bind, h, ht, pure, Except.pure,
    if_true, jsMatch, toStr]
  cases versionPattern.rmatch s.toList <;> simp

theorem checkCategory_falsy (fields : JSFields) (errors : List String)
    (h : toBoolean (fields.get "category") = false) :
    checkCategory (.obj fields) errors = .ok errors := by
  simp [checkCategory, getProp_obj, bind, Except.bind, h, pure, Except.pure]

theorem checkCategory_truthy (fields : JSFields) (errors : List String) (key : String)
    (h : toBoolean (fields.get "category") = true) (hk : toStr (fields.get "category") = .ok key) :
    checkCategory (.obj fields) errors =
      .ok (if categoriesHas key then errors else errors ++ [categoryMessage key]) := by
  simp only [checkCategory, getProp_obj, bind, Except.bind, h, hk, pure, Except.pure, if_true]
  cases categoriesHas key <;> simp

theorem checkProvides_falsy (fields : JSFields) (errors : List String)
    (h : toBoolean (fields.get "provides") = false) :
    checkProvides (.obj fields) errors = .ok errors := by
  simp [checkProvides, getProp_obj, bind, Except.bind, h, pure, Except.pure]

theorem checkProvides_obj (fields provides : JSFields) (errors : List String)
    (h : fields.get "provides" = .obj provides) :
    checkProvides (.obj fields) errors =
      .ok (if toBoolean (provides.get "frameworks") || toBoolean (provides.get "service_kinds")
           then errors else errors ++ [providesMessage]) := by
  have ht : toBoolean (.obj provides) = true := rfl
  simp only [checkProvides, getProp_obj, bind, Except.bind, h, ht, pure, Except.pure,
    if_true]
  cases toBoolean (provides.get "frameworks") <;>
    cases toBoolean (provides.get "service_kinds") <;> simp

/-! ## Each rule appends its own violations to `errors` -/

theorem checkApiVersion_append (manifest : JSValue) (errors : List String) :
    checkApiVersion manifest errors = (checkApiVersion manifest []).map (errors ++ ·) := by
  unfold checkApiVersion
  cases getProp manifest "apiVersion" with
  | error e => rfl
  | ok v =>
    simp only [bind, Except.bind, pure, Except.pure]
    split
    · cases jsMatch v apiVersionPattern with
      | error e => rfl
      | ok b =>
        cases b
        · simp only []
          cases toStr v <;> simp [Except.map]
        · simp [Except.map]
    · simp [Except.map]

theorem checkCategory_append (manifest : JSValue) (errors : List String) :
    checkCategory manifest errors = (checkCategory manifest []).map (errors ++ ·) := by
  unfold checkCategory
  cases getProp manifest "category" with
  | error e => rfl
  | ok v =>
    simp only [bind, Except.bind, pure, Except.pure]
    split
    · cases toStr v with
      | error e => rfl
      | ok key =>
        simp only []
        cases categoriesHas key <;> simp [Except.map]
    · simp [Except.map]

theorem checkVersion_append (manifest : JSValue) (errors : List String) :
    checkVersion manifest errors = (checkVersion manifest []).map (errors ++ ·) := by
  unfold checkVersion
  cases getProp manifest "version" with
  | error e => rfl
  | ok v =>
    simp only [bind, Except.bind, pure, Except.pure]
    split
    · cases jsMatch v versionPattern with
      | error e => rfl
      | ok b =>
        cases b
        · simp only []
          cases toStr v <;> simp [Except.map]
        · simp [Except.map]
    · simp [Except.map]

theorem checkProvides_append (manifest : JSValue) (errors : List String) :
    checkProvides manifest errors = (checkProvides manifest []).map (errors ++ ·) := by
  unfold checkProvides
  cases getProp manifest "provides" with
  | error e => rfl
  | ok v =>
    simp only [bind, Except.bind, pure, Except.pure]
    split
    · cases getProp v "frameworks" with
      | error e => rfl
      | ok f =>
        simp only []
        split
        · cases getProp v "service_kinds" with
          | error e => rfl
          | ok k =>
            simp only []
            split <;> simp [Except.map]
        · simp [Except.map]
    · simp [Except.map]

/-- The violations of a verdict on an object are those of the five rules, in the order
of the source, and the verdict is valid exactly when there is none. -/
theorem validate_obj_ok (fields : JSFields) (filePath : String) (verdict : Verdict)
    (h : validatePluginManifest (.obj fields) filePath = .ok verdict) :
    ∃ e2 e3 e4 e5 : List String,
      checkApiVersion (.obj fields) [] = .ok e2 ∧ checkCategory (.obj fields) [] = .ok e3 ∧
      checkVersion (.obj fields) [] = .ok e4 ∧ checkProvides (.obj fields) [] = .ok e5 ∧
      verdict.violations =
        (requiredFields.filter (isMissing fields)).map missingFieldMessage
          ++ e2 ++ e3 ++ e4 ++ e5 ∧
      verdict.valid = verdict.violations.isEmpty := by
  unfold validatePluginManifest at h
  rw [checkRequiredFields_obj] at h
  simp only [bind, Except.bind, List.nil_append] at h
  rw [checkApiVersion_append] at h
  cases h2 : checkApiVersion (.obj fields) [] with
  | error e => rw [h2] at h; simp [Except.map] at h
  | ok e2 =>
    rw [h2] at h
    simp only [Except.map] at h
    rw [checkCategory_append] at h
    cases h3 : checkCategory (.obj fields) [] with
    | error e => rw [h3] at h; simp [Except.map] at h
    | ok e3 =>
      rw [h3] at h
      simp only [Except.map] at h
      rw [checkVersion_append] at h
      cases h4 : checkVersion (.obj fields) [] with
      | error e => rw [h4] at h; simp [Except.map] at h
      | ok e4 =>
        rw [h4] at h
        simp only [Except.map] at h
        rw [checkProvides_append] at h
        cases h5 : checkProvides (.obj fields) [] with
        | error e => rw [h5] at h; simp [Except.map] at h
        | ok e5 =>
          rw [h5] at h
          simp only [Except.map] at h
          refine ⟨e2, e3, e4, e5, rfl, rfl, rfl, rfl, ?_⟩
          split at h
          · simp only [pure, Except.pure, Except.ok.injEq] at h
            subst h
            refine ⟨rfl, ?_⟩
            rename_i hlen
            cases hl : ((requiredFields.filter (isMissing fields)).map missingFieldMessage
              ++ e2 ++ e3 ++ e4 ++ e5) with
            | nil => rw [hl] at hlen; simp at hlen
            | cons a l => simp
          · rename_i hlen
            have hnil : (requiredFields.filter (isMissing fields)).map missingFieldMessage
              ++ e2 ++ e3 ++ e4 ++ e5 = [] := by
              apply List.eq_nil_of_length_eq_zero
              omega
            cases hg : getProp (JSValue.obj fields) "name" with
            | error e => rw [hg] at h; simp at h
            | ok nm =>
              rw [hg] at h
              simp only [] at h
              cases hn : toStr nm with
              | error e => rw [hn] at h; simp at h
              | ok t =>
                rw [hn] at h
                simp only [pure, Except.pure, Except.ok.injEq] at h
                subst h
                refine ⟨rfl, ?_⟩
                show true = List.isEmpty _
                rw [hnil]
                rfl

/-! ## The five kinds of message -/

theorem messageTag_missing (field : String) :
    messageTag (missingFieldMessage field) = "Missing r".data := rfl

theorem messageTag_apiVersion (s : String) :
    messageTag (apiVersionMessage s) = "Invalid a".data := rfl

theorem messageTag_category (s : String) :
    messageTag (categoryMessage s) = "Invalid c".data := rfl

theorem messageTag_version (s : String) :
    messageTag (versionMessage s) = "Invalid v".data := rfl

theorem messageTag_provides : messageTag providesMessage = "provides ".data := rfl

theorem messageTag_required_list (fields : JSFields) :
    ∀ x ∈ (requiredFields.filter (isMissing fields)).map missingFieldMessage,
      messageTag x = "Missing r".data := by
  intro x hx
  obtain ⟨f, _, rfl⟩ := List.mem_map.1 hx
  exact messageTag_missing f

theorem checkApiVersion_kind (manifest : JSValue) (e : List String)
    (h : checkApiVersion manifest [] = .ok e) : ∀ x ∈ e, messageTag x = "Invalid a".data := by
  unfold checkApiVersion at h
  cases hg : getProp manifest "apiVersion" with
  | error err => rw [hg] at h; simp [bind, Except.bind] at h
  | ok v =>
    rw [hg] at h
    simp only [bind, Except.bind, pure, Except.pure] at h
    split at h
    · cases hm : jsMatch v apiVersionPattern with
      | error err => rw [hm] at h; simp at h
      | ok b =>
        rw [hm] at h
        cases b
        · simp only [] at h
          cases ht : toStr v with
          | error err => rw [ht] at h; simp at h
          | ok t =>
            rw [ht] at h
            simp only [Bool.not_false, if_true, List.nil_append, Except.ok.injEq] at h
            subst h
            intro x hx
            rw [List.mem_singleton] at hx
            subst hx
            exact messageTag_apiVersion t
        · simp at h
          subst h
          simp
    · simp at h
      subst h
      simp

theorem checkVersion_kind (manifest : JSValue) (e : List String)
    (h : checkVersion manifest [] = .ok e) : ∀ x ∈ e, messageTag x = "Invalid v".data := by
  unfold checkVersion at h
  cases hg : getProp manifest "version" with
  | error err => rw [hg] at h; simp [bind, Except.bind] at h
  | ok v =>
    rw [hg] at h
    simp only [bind, Except.bind, pure, Except.pure] at h
    split at h
    · cases hm : jsMatch v versionPattern with
      | error err => rw [hm] at h; simp at h
      | ok b =>
        rw [hm] at h
        cases b
        · simp only [] at h
          cases ht : toStr v with
          | error err => rw [ht] at h; simp at h
          | ok t =>
            rw [ht] at h
            simp only [Bool.not_false, if_true, List.nil_append, Except.ok.injEq] at h
            subst h
            intro x hx
            rw [List.mem_singleton] at hx
            subst hx
            exact messageTag_version t
        · simp at h
          subst h
          simp
    · simp at h
      subst h
      simp

theorem checkCategory_kind (manifest : JSValue) (e : List String)
    (h : checkCategory manifest [] = .ok e) : ∀ x ∈ e, messageTag x = "Invalid c".data := by
  unfold checkCategory at h
  cases hg : getProp manifest "category" with
  | error err => rw [hg] at h; simp [bind, Except.bind] at h
  | ok v =>
    rw [hg] at h
    simp only [bind, Except.bind, pure, Except.pure] at h
    split at h
    · cases ht : toStr v with
      | error err => rw [ht] at h; simp at h
      | ok t =>
        rw [ht] at h
        simp only [] at h
        cases hc : categoriesHas t
        · rw [hc] at h
          simp only [Bool.not_false, if_true, List.nil_append, Except.ok.injEq] at h
          subst h
          intro x hx
          rw [List.mem_singleton] at hx
          subst hx
          exact messageTag_category t
        · rw [hc] at h
          simp at h
          subst h
          simp
    · simp at h
      subst h
      simp

theorem checkProvides_kind (manifest : JSValue) (e : List String)
    (h : checkProvides manifest [] = .ok e) : ∀ x ∈ e, messageTag x = "provides ".data := by
  unfold checkProvides at h
  cases hg : getProp manifest "provides" with
  | error err => rw [hg] at h; simp [bind, Except.bind] at h
  | ok v =>
    rw [hg] at h
    simp only [bind, Except.bind, pure, Except.pure] at h
    split at h
    · cases hf : getProp v "frameworks" with
      | error err => rw [hf] at h; simp at h
      | ok f =>
        rw [hf] at h
        simp only [] at h
        split at h
        · cases hk : getProp v "service_kinds" with
          | error err => rw [hk] at h; simp at h
          | ok k =>
            rw [hk] at h
            simp only [] at h
            split at h
            · simp only [List.nil_append, Except.ok.injEq] at h
              subst h
              intro x hx
              rw [List.mem_singleton] at hx
              subst hx
              exact messageTag_provides
            · simp at h
              subst h
              simp
        · simp at h
          subst h
          simp
    · simp at h
      subst h
      simp

theorem not_mem_of_tag (message : String) (tag : List Char) (e : List String)
    (he : ∀ x ∈ e, messageTag x = tag) (hm : messageTag message ≠ tag) : message ∉ e :=
  fun hmem => hm (he message hmem)

theorem count_eq_zero_of_tag (message : String) (tag : List Char) (e : List String)
    (he : ∀ x ∈ e, messageTag x = tag) (hm : messageTag message ≠ tag) :
    e.count message = 0 :=
  List.count_eq_zero.2 (not_mem_of_tag message tag e he hm)

theorem missingFieldMessage_injective : Function.Injective missingFieldMessage := by
  intro a b h
  have h2 := congrArg String.data h
  simp only [missingFieldMessage, String.data_append, List.append_cancel_left_eq] at h2
  exact String.ext h2

theorem requiredFields_nodup : requiredFields.Nodup := by decide

theorem count_required (fields : JSFields) (field : String) (hf : field ∈ requiredFields) :
    ((requiredFields.filter (isMissing fields)).map missingFieldMessage).count
      (missingFieldMessage field) = if isMissing fields field then 1 else 0 := by
  rw [List.count_map_of_injective _ _ missingFieldMessage_injective]
  cases hm : isMissing fields field
  · simp only [Bool.false_eq_true, if_false]
    apply List.count_eq_zero.2
    intro hmem
    have := (List.mem_filter.1 hmem).2
    rw [hm] at this
    exact Bool.noConfusion this
  · simp only [if_true]
    exact List.count_eq_one_of_mem (requiredFields_nodup.filter _)
      (List.mem_filter.2 ⟨hf, hm⟩)

/-! ## When the validator returns -/

theorem toStr_of_isStringOrFalsy (value : JSValue) (h : isStringOrFalsy value = true) :
    ∃ t, toStr value = .ok t := by
  cases value with
  | undefined => exact ⟨_, rfl⟩
  | null => exact ⟨_, rfl⟩
  | bool b => cases b <;> exact ⟨_, rfl⟩
  | num text => exact ⟨_, rfl⟩
  | str s => exact ⟨_, rfl⟩
  | arr items => simp [isStringOrFalsy, toBoolean] at h
  | obj fields => simp [isStringOrFalsy, toBoolean] at h

theorem str_or_falsy (value : JSValue) (h : isStringOrFalsy value = true) :
    toBoolean value = false ∨ ∃ s, value = .str s ∧ s ≠ "" := by
  cases value with
  | str s =>
    by_cases hs : s = ""
    · left; simp [toBoolean, hs]
    · right; exact ⟨s, rfl, hs⟩
  | undefined => left; rfl
  | null => left; rfl
  | bool b => left; simpa [isStringOrFalsy] using h
  | num text => left; simpa [isStringOrFalsy] using h
  | arr items => simp [isStringOrFalsy, toBoolean] at h
  | obj fields => simp [isStringOrFalsy, toBoolean] at h

theorem checkApiVersion_returns (fields : JSFields)
    (h : isStringOrFalsy (fields.get "apiVersion") = true) :
    ∃ e, checkApiVersion (.obj fields) [] = .ok e := by
  rcases str_or_falsy _ h with hf | ⟨s, hs, hne⟩
  · exact ⟨_, checkApiVersion_falsy fields [] hf⟩
  · exact ⟨_, checkApiVersion_str fields [] s hs hne⟩

theorem checkVersion_returns (fields : JSFields)
    (h : isStringOrFalsy (fields.get "version") = true) :
    ∃ e, checkVersion (.obj fields) [] = .ok e := by
  rcases str_or_falsy _ h with hf | ⟨s, hs, hne⟩
  · exact ⟨_, checkVersion_falsy fields [] hf⟩
  · exact ⟨_, checkVersion_str fields [] s hs hne⟩

theorem checkCategory_returns (fields : JSFields) (key : String)
    (h : toStr (fields.get "category") = .ok key) :
    ∃ e, checkCategory (.obj fields) [] = .ok e := by
  cases hb : toBoolean (fields.get "category")
  · exact ⟨_, checkCategory_falsy fields [] hb⟩
  · exact ⟨_, checkCategory_truthy fields [] key hb h⟩

theorem getProp_of_truthy (value : JSValue) (key : String) (h : toBoolean value = true) :
    ∃ v, getProp value key = .ok v := by
  cases value with
  | undefined => simp [toBoolean] at h
  | null => simp [toBoolean] at h
  | bool b => exact ⟨_, rfl⟩
  | num text => exact ⟨_, rfl⟩
  | str s => exact ⟨_, rfl⟩
  | arr items => exact ⟨_, rfl⟩
  | obj fields => exact ⟨_, rfl⟩

theorem checkProvides_returns (fields : JSFields) :
    ∃ e, checkProvides (.obj fields) [] = .ok e := by
  cases hb : toBoolean (fields.get "provides")
  · exact ⟨_, checkProvides_falsy fields [] hb⟩
  · obtain ⟨f, hf⟩ := getProp_of_truthy _ "frameworks" hb
    obtain ⟨k, hk⟩ := getProp_of_truthy _ "service_kinds" hb
    simp only [checkProvides, getProp_obj, bind, Except.bind, hb, hf, hk, pure, Except.pure,
      if_true]
    cases toBoolean f <;> cases toBoolean k <;> simp

/-- The validator returns a verdict on an object whose `apiVersion` and `version` are
strings or falsy and whose `category` and `name` convert to a string. -/
theorem validate_obj_returns (fields : JSFields) (filePath : String)
    (h2 : isStringOrFalsy (fields.get "apiVersion") = true)
    (h3 : ∃ key, toStr (fields.get "category") = .ok key)
    (h4 : isStringOrFalsy (fields.get "version") = true)
    (hn : ∃ t, toStr (fields.get "name") = .ok t) :
    ∃ verdict, validatePluginManifest (.obj fields) filePath = .ok verdict := by
  obtain ⟨e2, he2⟩ := checkApiVersion_returns fields h2
  obtain ⟨key, hkey⟩ := h3
  obtain ⟨e3, he3⟩ := checkCategory_returns fields key hkey
  obtain ⟨e4, he4⟩ := checkVersion_returns fields h4
  obtain ⟨e5, he5⟩ := checkProvides_returns fields
  obtain ⟨t, ht⟩ := hn
  unfold validatePluginManifest
  rw [checkRequiredFields_obj]
  simp only [bind, Except.bind]
  rw [checkApiVersion_append, he2]
  simp only [Except.map]
  rw [checkCategory_append, he3]
  simp only [Except.map]
  rw [checkVersion_append, he4]
  simp only [Except.map]
  rw [checkProvides_append, he5]
  simp only [Except.map, getProp_obj, ht]
  split
  · exact ⟨_, rfl⟩
  · exact ⟨_, rfl⟩

/-! ## The claims -/

/-- The required-field rule on manifest objects. The loop over the six required fields
pushes the message `Missing required field: <field>` once for each field whose value is
missing or falsy, in the order of `requiredFields`, and nothing else. In every verdict
the validator returns on such a manifest, that message occurs exactly once for a missing
field and not at all for a field that is there, no format violation is raised about a
missing `apiVersion`, `category` or `version`, and the verdict is invalid as soon as one
field is missing. The validator does return a verdict whenever the six fields are strings
or missing; `missing_field_unreported_on_numeric_version` shows a manifest on which it
returns none. -/
theorem required_fields_reported_once (fields : JSFields) (filePath : String) :
    (∀ errors, checkRequiredFields (.obj fields) errors =
        .ok (errors ++ (requiredFields.filter (isMissing fields)).map missingFieldMessage)) ∧
    (∀ verdict, validatePluginManifest (.obj fields) filePath = .ok verdict →
        (∀ field ∈ requiredFields, verdict.violations.count (missingFieldMessage field) =
            if isMissing fields field then 1 else 0) ∧
        (isMissing fields "apiVersion" = true → ∀ s, apiVersionMessage s ∉ verdict.violations) ∧
        (isMissing fields "category" = true → ∀ s, categoryMessage s ∉ verdict.violations) ∧
        (isMissing fields "version" = true → ∀ s, versionMessage s ∉ verdict.violations) ∧
        ((∃ field ∈ requiredFields, isMissing fields field = true) → verdict.valid = false)) ∧
    ((∀ field ∈ requiredFields, isStringOrFalsy (fields.get field) = true) →
        ∃ verdict, validatePluginManifest (.obj fields) filePath = .ok verdict) := by
  refine ⟨checkRequiredFields_obj fields, ?_, ?_⟩
  · intro verdict h
    obtain ⟨e2, e3, e4, e5, h2, h3, h4, h5, hv, hvalid⟩ := validate_obj_ok fields filePath verdict h
    have k1 := messageTag_required_list fields
    have k2 := checkApiVersion_kind _ _ h2
    have k3 := checkCategory_kind _ _ h3
    have k4 := checkVersion_kind _ _ h4
    have k5 := checkProvides_kind _ _ h5
    refine ⟨?_, ?_, ?_, ?_, ?_⟩
    · intro field hf
      rw [hv, List.count_append, List.count_append, List.count_append, List.count_append,
        count_required fields field hf,
        count_eq_zero_of_tag _ _ e2 k2 (by rw [messageTag_missing]; decide),
        count_eq_zero_of_tag _ _ e3 k3 (by rw [messageTag_missing]; decide),
        count_eq_zero_of_tag _ _ e4 k4 (by rw [messageTag_missing]; decide),
        count_eq_zero_of_tag _ _ e5 k5 (by rw [messageTag_missing]; decide)]
      simp
    · intro hm s
      have he2 : e2 = [] := by
        have := checkApiVersion_falsy fields [] (by simpa [isMissing] using hm)
        rw [h2] at this
        exact Except.ok.inj this
      rw [hv, he2]
      simp only [List.append_nil, List.mem_append, not_or]
      exact ⟨⟨⟨not_mem_of_tag _ _ _ k1 (by rw [messageTag_apiVersion]; decide),
        not_mem_of_tag _ _ _ k3 (by rw [messageTag_apiVersion]; decide)⟩,
        not_mem_of_tag _ _ _ k4 (by rw [messageTag_apiVersion]; decide)⟩,
        not_mem_of_tag _ _ _ k5 (by rw [messageTag_apiVersion]; decide)⟩
    · intro hm s
      have he3 : e3 = [] := by
        have := checkCategory_falsy fields [] (by simpa [isMissing] using hm)
        rw [h3] at this
        exact Except.ok.inj this
      rw [hv, he3]
      simp only [List.append_nil, List.mem_append, not_or]
      exact ⟨⟨⟨not_mem_of_tag _ _ _ k1 (by rw [messageTag_category]; decide),
        not_mem_of_tag _ _ _ k2 (by rw [messageTag_category]; decide)⟩,
        not_mem_of_tag _ _ _ k4 (by rw [messageTag_category]; decide)⟩,
        not_mem_of_tag _ _ _ k5 (by rw [messageTag_category]; decide)⟩
    · intro hm s
      have he4 : e4 = [] := by
        have := checkVersion_falsy fields [] (by simpa [isMissing] using hm)
        rw [h4] at this
        exact Except.ok.inj this
      rw [hv, he4]
      simp only [List.append_nil, List.mem_append, not_or]
      exact ⟨⟨⟨not_mem_of_tag _ _ _ k1 (by rw [messageTag_version]; decide),
        not_mem_of_tag _ _ _ k2 (by rw [messageTag_version]; decide)⟩,
        not_mem_of_tag _ _ _ k3 (by rw [messageTag_version]; decide)⟩,
        not_mem_of_tag _ _ _ k5 (by rw [messageTag_version]; decide)⟩
    · rintro ⟨field, hf, hm⟩
      rw [hvalid, hv]
      have hmem : missingFieldMessage field ∈
          (requiredFields.filter (isMissing fields)).map missingFieldMessage :=
        List.mem_map.2 ⟨field, List.mem_filter.2 ⟨hf, hm⟩, rfl⟩
      cases hl : (requiredFields.filter (isMissing fields)).map missingFieldMessage with
      | nil => rw [hl] at hmem; exact absurd hmem (List.not_mem_nil _)
      | cons a l => rfl
  · intro hall
    refine validate_obj_returns fields filePath (hall _ (by decide)) ?_ (hall _ (by decide)) ?_
    · exact toStr_of_isStringOrFalsy _ (hall "category" (by decide))
    · exact toStr_of_isStringOrFalsy _ (hall "name" (by decide))

/-- C1, the failing input. The manifest has no `name` and the number 1 as `version` (YAML
`version: 1.0`). The loop of lines 58-64 pushes `Missing required field: name`, and line
77 then calls `manifest.version.match`, which is not a function on a number: the
validator throws a `TypeError`, so no violation is reported for the missing field and no
verdict is returned. The same happens with a numeric `apiVersion` at line 67. In a run
the file is counted as invalid by the `catch` clause, without any violation. -/
theorem missing_field_unreported_on_numeric_version :
    isMissing manifestNumericVersionNoName "name" = true ∧
    checkRequiredFields (.obj manifestNumericVersionNoName) [] =
      .ok ["Missing required field: name"] ∧
    validatePluginManifest (.obj manifestNumericVersionNoName) "plugin.yaml" =
      .error (.typeError "match is not a function") ∧
    validatePluginManifest
        (.obj (.ofList [("apiVersion", .num "1"), ("version", .str "1.0.0"),
          ("category", .str "database"), ("description", .str "PostgreSQL database"),
          ("author", .str "Arfni")])) "plugin.yaml" =
      .error (.typeError "match is not a function") ∧
    (scanLoop sampleHost false [postgresFile manifestNumericVersionNoName]).plugins =
      [] ∧
    (scanLoop sampleHost false [postgresFile manifestNumericVersionNoName]).invalidCount =
      1 ∧
    runScript sampleHost true [postgresFile manifestNumericVersionNoName] =
      { exitCode := 1, written := none } := by
  decide

/-- C2, counterexample. In `provides: {frameworks: null}` the key `frameworks` is present,
and the rule still raises its violation: the manifest, valid otherwise, is rejected. -/
theorem provides_present_null_key_rejected :
    (JSFields.ofList [("frameworks", JSValue.null)]).keys.contains "frameworks" = true ∧
    checkProvides
      (.obj (manifestWith [("provides", .obj (.ofList [("frameworks", .null)]))])) [] =
        .ok [providesMessage] ∧
    validatePluginManifest
      (.obj (manifestWith [("provides", .obj (.ofList [("frameworks", .null)]))]))
      "plugin.yaml" = .ok { valid := false, violations := [providesMessage] } := by
  decide

/-- C2, amended. For every manifest whose `provides` is an object, the provides rule raises
no violation if and only if `frameworks` or `service_kinds` holds a truthy value in that
object, and otherwise raises exactly its one violation; the same holds of every verdict
the validator returns. An empty sequence is truthy: `provides: {frameworks: []}` passes,
and `provides: {}` fails. -/
theorem provides_rule_by_truthiness (fields provides : JSFields) (errors : List String)
    (h : fields.get "provides" = .obj provides) :
    (checkProvides (.obj fields) errors = .ok errors ↔
      (toBoolean (provides.get "frameworks") = true ∨
        toBoolean (provides.get "service_kinds") = true)) ∧
    (checkProvides (.obj fields) errors = .ok (errors ++ [providesMessage]) ↔
      ¬ (toBoolean (provides.get "frameworks") = true ∨
        toBoolean (provides.get "service_kinds") = true)) ∧
    (∀ filePath verdict, validatePluginManifest (.obj fields) filePath = .ok verdict →
      (providesMessage ∈ verdict.violations ↔
        ¬ (toBoolean (provides.get "frameworks") = true ∨
          toBoolean (provides.get "service_kinds") = true))) ∧
    checkProvides (.obj (manifestWith [("provides", .obj .nil)])) [] = .ok [providesMessage] ∧
    checkProvides
      (.obj (manifestWith [("provides", .obj (.ofList [("frameworks", .arr .nil)]))])) [] =
        .ok [] := by
  have hrule := fun errors => checkProvides_obj fields provides errors h
  refine ⟨?_, ?_, ?_, by decide, by decide⟩
  · rw [hrule errors]
    cases toBoolean (provides.get "frameworks") <;>
      cases toBoolean (provides.get "service_kinds") <;> simp
  · rw [hrule errors]
    cases toBoolean (provides.get "frameworks") <;>
      cases toBoolean (provides.get "service_kinds") <;> simp
  · intro filePath verdict hv
    obtain ⟨e2, e3, e4, e5, h2, h3, h4, h5, hvi, -⟩ := validate_obj_ok fields filePath verdict hv
    have k1 := messageTag_required_list fields
    have k2 := checkApiVersion_kind _ _ h2
    have k3 := checkCategory_kind _ _ h3
    have k4 := checkVersion_kind _ _ h4
    have n1 := not_mem_of_tag providesMessage _ _ k1 (by rw [messageTag_provides]; decide)
    have n2 := not_mem_of_tag providesMessage _ _ k2 (by rw [messageTag_provides]; decide)
    have n3 := not_mem_of_tag providesMessage _ _ k3 (by rw [messageTag_provides]; decide)
    have n4 := not_mem_of_tag providesMessage _ _ k4 (by rw [messageTag_provides]; decide)
    rw [hrule []] at h5
    have he5 := Except.ok.inj h5
    rw [hvi, ← he5]
    simp only [List.mem_append, n1, n2, n3, n4, false_or]
    cases toBoolean (provides.get "frameworks") <;>
      cases toBoolean (provides.get "service_kinds") <;> simp

/-- C2, the amended statement at `provides: {frameworks: []}`. -/
theorem provides_rule_by_truthiness_witness :
    (manifestWith [("provides", .obj (.ofList [("frameworks", .arr .nil)]))]).get "provides" =
      .obj (.ofList [("frameworks", .arr .nil)]) ∧
    (checkProvides
      (.obj (manifestWith [("provides", .obj (.ofList [("frameworks", .arr .nil)]))])) [] =
        .ok [] ↔
      (toBoolean ((JSFields.ofList [("frameworks", .arr .nil)]).get "frameworks") = true ∨
        toBoolean ((JSFields.ofList [("frameworks", .arr .nil)]).get "service_kinds") = true)) :=
  ⟨by decide,
    (provides_rule_by_truthiness
      (manifestWith [("provides", .obj (.ofList [("frameworks", .arr .nil)]))])
      (.ofList [("frameworks", .arr .nil)]) [] (by decide)).1⟩

/-- C3, the failing input. The category `constructor` is none of the eight keys of the
catalog, yet the category rule raises no violation and the manifest is accepted:
`CATEGORIES[manifest.category]` finds `Object.prototype.constructor`. A category unknown
to the prototype too, such as `unknown_cat`, is rejected with the eight keys listed. -/
theorem category_constructor_accepted :
    "constructor" ∉ categoryKeys ∧
    checkCategory (.obj (manifestWithCategory (.str "constructor"))) [] = .ok [] ∧
    validatePluginManifest (.obj (manifestWithCategory (.str "constructor"))) "plugin.yaml" =
      .ok { valid := true, violations := [] } ∧
    validatePluginManifest (.obj (manifestWithCategory (.str "unknown_cat"))) "plugin.yaml" =
      .ok { valid := false, violations := ["Invalid category: unknown_cat. Must be one of: " ++
        "framework, database, cache, message_queue, proxy, cicd, orchestration, infrastructure"] } := by
  decide

/-- C4, the failing input. In permissive mode a single file whose manifest parses and lacks
`name` yields no entry: validation fails (first count), line 146 then throws on
`manifest.name.charAt`, and the `catch` clause counts the file as invalid a second time. -/
theorem scan_drops_manifest_without_name :
    (postgresFile manifestWithoutName).loaded = .ok (.obj manifestWithoutName) ∧
    validatePluginManifest (.obj manifestWithoutName) "/repo/plugins/database/postgres/plugin.yaml" =
      .ok { valid := false, violations := ["Missing required field: name"] } ∧
    buildRegistryEntry sampleHost (.obj manifestWithoutName) "plugins/database/postgres"
      "2024-01-01T00:00:00.000Z" =
      .error (.typeError "Cannot read properties of undefined (reading charAt)") ∧
    scanPlugins sampleHost false [postgresFile manifestWithoutName] =
      .ok { plugins := [], validCount := 0, invalidCount := 2, clockReads := 0 } := by
  decide

/-- C5, the failing input. With `apiVersion: 1.0`, which YAML loads as the number 1, the
validator returns no verdict: `manifest.apiVersion.match` is not a function and the call
throws a `TypeError`. -/
theorem validate_throws_on_numeric_apiVersion :
    validatePluginManifest (.obj (manifestWithApiVersion (.num "1"))) "plugin.yaml" =
      .error (.typeError "match is not a function") := by
  decide

/-! ## The two patterns -/

theorem digit_rmatch_iff (x : List Char) :
    digit.rmatch x = true ↔ ∃ c ∈ decimalDigits, x = [c] := by
  simp only [digit, RegularExpression.add_rmatch_iff, RegularExpression.char_rmatch_iff,
    decimalDigits, List.mem_cons, List.mem_singleton, List.not_mem_nil, or_false]
  constructor
  · intro h
    rcases h with ((((((((h | h) | h) | h) | h) | h) | h) | h) | h) | h <;>
      exact ⟨_, by simp, h⟩
  · rintro ⟨c, hc, rfl⟩
    rcases hc with h | h | h | h | h | h | h | h | h | h <;> subst h <;> simp

theorem star_digit_rmatch_iff (x : List Char) :
    (RegularExpression.star digit).rmatch x = true ↔ ∀ c ∈ x, c ∈ decimalDigits := by
  rw [RegularExpression.star_rmatch_iff]
  constructor
  · rintro ⟨S, rfl, hS⟩ c hc
    rw [List.mem_flatten] at hc
    obtain ⟨t, ht, hct⟩ := hc
    obtain ⟨d, hd, rfl⟩ := (digit_rmatch_iff t).1 (hS t ht).2
    rw [List.mem_singleton] at hct
    exact hct ▸ hd
  · intro h
    refine ⟨x.map (fun c => [c]), ?_, ?_⟩
    · induction x with
      | nil => rfl
      | cons a l ih =>
        have := ih (fun c hc => h c (List.mem_cons_of_mem _ hc))
        simp only [List.map_cons, List.flatten_cons, List.singleton_append]
        rw [← this]
    · intro t ht
      rw [List.mem_map] at ht
      obtain ⟨c, hc, rfl⟩ := ht
      exact ⟨by simp, (digit_rmatch_iff [c]).2 ⟨c, h c hc, rfl⟩⟩

theorem digits_rmatch_iff (x : List Char) :
    digits.rmatch x = true ↔ x ≠ [] ∧ ∀ c ∈ x, c ∈ decimalDigits := by
  unfold digits
  rw [RegularExpression.mul_rmatch_iff]
  constructor
  · rintro ⟨t, u, rfl, ht, hu⟩
    obtain ⟨d, hd, rfl⟩ := (digit_rmatch_iff t).1 ht
    refine ⟨by simp, ?_⟩
    intro c hc
    rcases List.mem_append.1 hc with h | h
    · rw [List.mem_singleton] at h
      exact h ▸ hd
    · exact (star_digit_rmatch_iff u).1 hu c h
  · rintro ⟨hne, h⟩
    cases x with
    | nil => exact absurd rfl hne
    | cons a l =>
      refine ⟨[a], l, rfl, (digit_rmatch_iff [a]).2 ⟨a, h a (List.mem_cons_self _ _), rfl⟩, ?_⟩
      exact (star_digit_rmatch_iff l).2 (fun c hc => h c (List.mem_cons_of_mem _ hc))

/-- The pattern `/^v\d+\.\d+$/` accepts exactly the strings of the form `v<digits>.<digits>`. -/
theorem apiVersionPattern_rmatch_iff (s : String) :
    apiVersionPattern.rmatch s.toList = true ↔ IsApiVersionForm s := by
  unfold apiVersionPattern IsApiVersionForm
  simp only [RegularExpression.mul_rmatch_iff, RegularExpression.char_rmatch_iff,
    digits_rmatch_iff]
  constructor
  · rintro ⟨t, minor, hs, ⟨t2, dot, rfl, ⟨v, major, rfl, rfl, hmajor⟩, rfl⟩, hminor⟩
    exact ⟨major, minor, hmajor.1, hminor.1, hmajor.2, hminor.2, by rw [hs]; simp⟩
  · rintro ⟨major, minor, h1, h2, h3, h4, hs⟩
    exact ⟨'v' :: (major ++ ['.']), minor, by rw [hs]; simp,
      ⟨'v' :: major, ['.'], by simp, ⟨['v'], major, rfl, rfl, h1, h3⟩, rfl⟩, h2, h4⟩

/-- The pattern `/^\d+\.\d+\.\d+$/` accepts exactly the strings of the form
`<digits>.<digits>.<digits>`. -/
theorem versionPattern_rmatch_iff (s : String) :
    versionPattern.rmatch s.toList = true ↔ IsVersionForm s := by
  unfold versionPattern IsVersionForm
  simp only [RegularExpression.mul_rmatch_iff, RegularExpression.char_rmatch_iff,
    digits_rmatch_iff]
  constructor
  · rintro ⟨t, patch, hs, ⟨t2, dot2, rfl, ⟨t3, minor, rfl, ⟨major, dot1, rfl, hmajor, rfl⟩,
      hminor⟩, rfl⟩, hpatch⟩
    exact ⟨major, minor, patch, hmajor.1, hminor.1, hpatch.1, hmajor.2, hminor.2, hpatch.2,
      by rw [hs]; simp⟩
  · rintro ⟨major, minor, patch, h1, h2, h3, h4, h5, h6, hs⟩
    exact ⟨major ++ '.' :: (minor ++ ['.']), patch, by rw [hs]; simp,
      ⟨major ++ '.' :: minor, ['.'], by simp, ⟨major ++ ['.'], minor, by simp,
        ⟨major, ['.'], rfl, ⟨h1, h4⟩, rfl⟩, h2, h5⟩, rfl⟩, h3, h6⟩

/-- C6. For every manifest whose `apiVersion` is a non-empty string, the apiVersion rule
leaves `errors` as it is exactly when the whole string has the form `v`, one or more
decimal digits, `.`, one or more decimal digits, and otherwise pushes the one violation
`Invalid apiVersion format: ...`; a verdict the validator returns holds that violation
if and only if the string is not of the form. The pattern accepts `v0.1`, `v10.20` and
`v12.3` and rejects `0.1`, `v1`, `v1.2.3` and `version1.0`. -/
theorem apiVersion_format_rule (fields : JSFields) (s : String) (errors : List String)
    (h : fields.get "apiVersion" = .str s) (hs : s ≠ "") :
    (checkApiVersion (.obj fields) errors = .ok errors ↔ IsApiVersionForm s) ∧
    (checkApiVersion (.obj fields) errors = .ok (errors ++ [apiVersionMessage s]) ↔
      ¬ IsApiVersionForm s) ∧
    (∀ filePath verdict, validatePluginManifest (.obj fields) filePath = .ok verdict →
      (apiVersionMessage s ∈ verdict.violations ↔ ¬ IsApiVersionForm s)) ∧
    (IsApiVersionForm "v0.1" ∧ IsApiVersionForm "v10.20" ∧ IsApiVersionForm "v12.3") ∧
    (¬ IsApiVersionForm "0.1" ∧ ¬ IsApiVersionForm "v1" ∧ ¬ IsApiVersionForm "v1.2.3" ∧
      ¬ IsApiVersionForm "version1.0") := by
  have hrule := fun errors => checkApiVersion_str fields errors s h hs
  have hform := apiVersionPattern_rmatch_iff s
  refine ⟨?_, ?_, ?_, ?_, ?_⟩
  · rw [hrule errors, ← hform]
    cases apiVersionPattern.rmatch s.toList
    · simp
    · simp
  · rw [hrule errors, ← hform]
    cases apiVersionPattern.rmatch s.toList
    · simp
    · simp
  · intro filePath verdict hv
    obtain ⟨e2, e3, e4, e5, h2, h3, h4, h5, hvi, -⟩ := validate_obj_ok fields filePath verdict hv
    have n1 := not_mem_of_tag (apiVersionMessage s) _ _ (messageTag_required_list fields)
      (by rw [messageTag_apiVersion]; decide)
    have n3 := not_mem_of_tag (apiVersionMessage s) _ _ (checkCategory_kind _ _ h3)
      (by rw [messageTag_apiVersion]; decide)
    have n4 := not_mem_of_tag (apiVersionMessage s) _ _ (checkVersion_kind _ _ h4)
      (by rw [messageTag_apiVersion]; decide)
    have n5 := not_mem_of_tag (apiVersionMessage s) _ _ (checkProvides_kind _ _ h5)
      (by rw [messageTag_apiVersion]; decide)
    rw [hrule []] at h2
    have he2 := Except.ok.inj h2
    rw [hvi, ← he2, ← hform]
    simp only [List.mem_append, n1, n3, n4, n5, false_or, or_false]
    cases apiVersionPattern.rmatch s.toList <;> simp
  · exact ⟨(apiVersionPattern_rmatch_iff _).1 (by decide),
      (apiVersionPattern_rmatch_iff _).1 (by decide),
      (apiVersionPattern_rmatch_iff _).1 (by decide)⟩
  · exact ⟨fun hf => absurd ((apiVersionPattern_rmatch_iff _).2 hf) (by decide),
      fun hf => absurd ((apiVersionPattern_rmatch_iff _).2 hf) (by decide),
      fun hf => absurd ((apiVersionPattern_rmatch_iff _).2 hf) (by decide),
      fun hf => absurd ((apiVersionPattern_rmatch_iff _).2 hf) (by decide)⟩

/-- C6 at `apiVersion: "0.1"`, which is rejected. -/
theorem apiVersion_format_rule_witness :
    (manifestWithApiVersion (.str "0.1")).get "apiVersion" = .str "0.1" ∧ "0.1" ≠ "" ∧
    (checkApiVersion (.obj (manifestWithApiVersion (.str "0.1"))) [] =
        .ok ([] ++ [apiVersionMessage "0.1"]) ↔ ¬ IsApiVersionForm "0.1") ∧
    checkApiVersion (.obj (manifestWithApiVersion (.str "0.1"))) [] =
        .ok ["Invalid apiVersion format: 0.1 (expected format: v0.1)"] :=
  ⟨by decide, by decide,
    (apiVersion_format_rule (manifestWithApiVersion (.str "0.1")) "0.1" []
      (by decide) (by decide)).2.1,
    by decide⟩

/-- C7. For every manifest whose `version` is a non-empty string, the version rule leaves
`errors` as it is exactly when the whole string has the form digits `.` digits `.` digits
(each run of one or more decimal digits), and otherwise pushes the one violation
`Invalid version format: ...`; a verdict the validator returns holds that violation if
and only if the string is not of the form. The pattern accepts `1.0.0` and `10.2.33` and
rejects `1.0`, `1.0.0-beta` and `v1.0.0`. -/
theorem version_format_rule (fields : JSFields) (s : String) (errors : List String)
    (h : fields.get "version" = .str s) (hs : s ≠ "") :
    (checkVersion (.obj fields) errors = .ok errors ↔ IsVersionForm s) ∧
    (checkVersion (.obj fields) errors = .ok (errors ++ [versionMessage s]) ↔
      ¬ IsVersionForm s) ∧
    (∀ filePath verdict, validatePluginManifest (.obj fields) filePath = .ok verdict →
      (versionMessage s ∈ verdict.violations ↔ ¬ IsVersionForm s)) ∧
    (IsVersionForm "1.0.0" ∧ IsVersionForm "10.2.33") ∧
    (¬ IsVersionForm "1.0" ∧ ¬ IsVersionForm "1.0.0-beta" ∧ ¬ IsVersionForm "v1.0.0") := by
  have hrule := fun errors => checkVersion_str fields errors s h hs
  have hform := versionPattern_rmatch_iff s
  refine ⟨?_, ?_, ?_, ?_, ?_⟩
  · rw [hrule errors, ← hform]
    cases versionPattern.rmatch s.toList
    · simp
    · simp
  · rw [hrule errors, ← hform]
    cases versionPattern.rmatch s.toList
    · simp
    · simp
  · intro filePath verdict hv
    obtain ⟨e2, e3, e4, e5, h2, h3, h4, h5, hvi, -⟩ := validate_obj_ok fields filePath verdict hv
    have n1 := not_mem_of_tag (versionMessage s) _ _ (messageTag_required_list fields)
      (by rw [messageTag_version]; decide)
    have n2 := not_mem_of_tag (versionMessage s) _ _ (checkApiVersion_kind _ _ h2)
      (by rw [messageTag_version]; decide)
    have n3 := not_mem_of_tag (versionMessage s) _ _ (checkCategory_kind _ _ h3)
      (by rw [messageTag_version]; decide)
    have n5 := not_mem_of_tag (versionMessage s) _ _ (checkProvides_kind _ _ h5)
      (by rw [messageTag_version]; decide)
    rw [hrule []] at h4
    have he4 := Except.ok.inj h4
    rw [hvi, ← he4, ← hform]
    simp only [List.mem_append, n1, n2, n3, n5, false_or, or_false]
    cases versionPattern.rmatch s.toList <;> simp
  · exact ⟨(versionPattern_rmatch_iff _).1 (by decide),
      (versionPattern_rmatch_iff _).1 (by decide)⟩
  · exact ⟨fun hf => absurd ((versionPattern_rmatch_iff _).2 hf) (by decide),
      fun hf => absurd ((versionPattern_rmatch_iff _).2 hf) (by decide),
      fun hf => absurd ((versionPattern_rmatch_iff _).2 hf) (by decide)⟩

/-- C7 at `version: "1.0.0"`, which is accepted. -/
theorem version_format_rule_witness :
    (manifestWith []).get "version" = .str "1.0.0" ∧ "1.0.0" ≠ "" ∧
    (checkVersion (.obj (manifestWith [])) [] = .ok [] ↔ IsVersionForm "1.0.0") ∧
    checkVersion (.obj (manifestWith [])) [] = .ok [] :=
  ⟨by decide, by decide,
    (version_format_rule (manifestWith []) "1.0.0" [] (by decide) (by decide)).1,
    by decide⟩

/-! ## The entry builder -/

theorem entryName_of_displayName (host : Host) (fields : JSFields)
    (h : toBoolean (fields.get "displayName") = true) :
    entryName host (.obj fields) = .ok (fields.get "displayName") := by
  simp [entryName, getProp_obj, bind, Except.bind, h, pure, Except.pure]

theorem entryName_of_name (host : Host) (fields : JSFields) (n : String)
    (h : toBoolean (fields.get "displayName") = false) (hn : fields.get "name" = .str n) :
    entryName host (.obj fields) = .ok (.str (capitalize host n)) := by
  simp [entryName, getProp_obj, bind, Except.bind, h, hn, pure, Except.pure]

/-- The builder returns an entry as soon as line 146 finds a name. -/
theorem buildRegistryEntry_ok (host : Host) (fields : JSFields) (relativePath now : String)
    (name : JSValue) (h : entryName host (.obj fields) = .ok name) :
    ∃ entry, buildRegistryEntry host (.obj fields) relativePath now = .ok entry ∧
      entry.id = fields.get "name" ∧ entry.name = name ∧
      entry.category = fields.get "category" ∧
      entry.path = normalizePath relativePath ∧ entry.last_updated = now ∧
      entry.downloads = 0 := by
  simp only [buildRegistryEntry, getProp_obj, bind, Except.bind, h, pure, Except.pure]
  exact ⟨_, rfl, rfl, rfl, rfl, rfl, rfl, rfl⟩

/-- C8. For every manifest with a string `name`, the builder returns an entry whose `id` is
that name verbatim and whose `name` is `manifest.displayName` when that is there (truthy),
and otherwise `manifest.name` with its first code unit upper-cased and the rest unchanged:
`postgres` gives `Postgres` and `my-plugin` gives `My-plugin`. -/
theorem entry_id_and_name (host : Host) (fields : JSFields) (n relativePath now : String)
    (h : fields.get "name" = .str n) :
    (∃ entry, buildRegistryEntry host (.obj fields) relativePath now = .ok entry ∧
      entry.id = .str n ∧
      (toBoolean (fields.get "displayName") = true → entry.name = fields.get "displayName") ∧
      (toBoolean (fields.get "displayName") = false →
        entry.name = .str (capitalize host n))) ∧
    (∀ c rest, n.data = c :: rest → c.val < 65536 →
      capitalize host n = toUpperCase host c ++ String.mk rest) ∧
    (∀ c : Char, c.val < 128 → toUpperCase host c = String.singleton c.toUpper) ∧
    capitalize host "postgres" = "Postgres" ∧ capitalize host "my-plugin" = "My-plugin" := by
  refine ⟨?_, ?_, ?_, rfl, rfl⟩
  · cases hd : toBoolean (fields.get "displayName")
    · obtain ⟨entry, he, hid, hname, -⟩ := buildRegistryEntry_ok host fields relativePath now _
        (entryName_of_name host fields n hd h)
      exact ⟨entry, he, hid.trans h, fun hc => Bool.noConfusion hc, fun _ => hname⟩
    · obtain ⟨entry, he, hid, hname, -⟩ := buildRegistryEntry_ok host fields relativePath now _
        (entryName_of_displayName host fields hd)
      exact ⟨entry, he, hid.trans h, fun _ => hname, fun hc => Bool.noConfusion hc⟩
  · intro c rest hdata hc
    simp [capitalize, hdata, hc]
  · intro c hc
    simp [toUpperCase, hc]

/-- C8 at the manifest `validFields`, found under `plugins/database/postgres`. -/
theorem entry_id_and_name_witness :
    (manifestWith []).get "name" = .str "postgres" ∧
    ∃ entry, buildRegistryEntry sampleHost (.obj (manifestWith [])) "plugins/database/postgres"
        "2024-01-01T00:00:00.000Z" = .ok entry ∧
      entry.id = .str "postgres" ∧
      (toBoolean ((manifestWith []).get "displayName") = true →
        entry.name = (manifestWith []).get "displayName") ∧
      (toBoolean ((manifestWith []).get "displayName") = false →
        entry.name = .str (capitalize sampleHost "postgres")) :=
  ⟨by decide,
    (entry_id_and_name sampleHost (manifestWith []) "postgres" "plugins/database/postgres"
      "2024-01-01T00:00:00.000Z" (by decide)).1⟩

/-! ## Counting by category -/

theorem categoryKeys_nodup : categoryKeys.Nodup := by decide

theorem annotate_keys (count : String → Nat) : (annotate count).map Prod.fst = categoryKeys := by
  simp [annotate, categoryKeys, List.map_map]

theorem annotate_congr (c1 c2 : String → Nat) (h : ∀ key ∈ categoryKeys, c1 key = c2 key) :
    annotate c1 = annotate c2 := by
  unfold annotate
  apply List.map_congr_left
  intro entry hentry
  have hk : entry.1 ∈ categoryKeys := List.mem_map.2 ⟨entry, hentry, rfl⟩
  rw [h _ hk]

theorem incrementCount_map (key : String) (count : String → Nat) :
    ∀ l : List (String × CategoryInfo), (l.map Prod.fst).Nodup →
      incrementCount key (l.map (fun entry =>
        (entry.1, { name := entry.2.name, description := entry.2.description,
                    count := count entry.1 }))) =
      l.map (fun entry =>
        (entry.1, { name := entry.2.name, description := entry.2.description,
                    count := if entry.1 = key then count entry.1 + 1 else count entry.1 })) := by
  intro l
  induction l with
  | nil => intro _; rfl
  | cons a l ih =>
    intro hnd
    rw [List.map_cons, List.nodup_cons] at hnd
    simp only [List.map_cons, incrementCount]
    by_cases hk : a.1 = key
    · simp only [hk, if_true]
      congr 1
      apply List.map_congr_left
      intro entry hentry
      have hne : entry.1 ≠ key := by
        intro heq
        apply hnd.1
        rw [hk, ← heq]
        exact List.mem_map.2 ⟨entry, hentry, rfl⟩
      simp [hne]
    · simp only [hk, if_false]
      rw [ih hnd.2]

theorem incrementCount_annotate (key : String) (count : String → Nat) :
    incrementCount key (annotate count) =
      annotate (fun k => if k = key then count k + 1 else count k) :=
  incrementCount_map key count CATEGORIES categoryKeys_nodup

theorem countInCategory_cons (plugin : RegistryEntry) (plugins : List RegistryEntry)
    (key : String) :
    countInCategory (plugin :: plugins) key =
      countInCategory plugins key + if toStr plugin.category = .ok key then 1 else 0 := by
  simp [countInCategory, List.countP_cons]

theorem foldlM_stats (plugins : List RegistryEntry)
    (h : ∀ p ∈ plugins, ∃ key, toStr p.category = .ok key) :
    ∀ count : String → Nat,
      plugins.foldlM countPlugin (annotate count) =
        .ok (annotate (fun key => count key + countInCategory plugins key)) := by
  induction plugins with
  | nil =>
    intro count
    simp [pure, Except.pure, countInCategory]
  | cons p plugins ih =>
    intro count
    obtain ⟨key, hkey⟩ := h p (List.mem_cons_self _ _)
    have ih2 := ih (fun q hq => h q (List.mem_cons_of_mem _ hq))
    rw [List.foldlM_cons]
    simp only [countPlugin, hkey, bind, Except.bind, annotate_keys, pure, Except.pure]
    by_cases hmem : key ∈ categoryKeys
    · have hc : categoryKeys.contains key = true := by simpa using hmem
      simp only [hc, if_true]
      rw [incrementCount_annotate, ih2]
      congr 1
      apply annotate_congr
      intro k _
      rw [countInCategory_cons, hkey]
      by_cases hk : k = key
      · simp [hk]; omega
      · have : ¬ (Except.ok key : Except JSError String) = .ok k := by
          intro heq; exact hk (Except.ok.inj heq).symm
        simp [hk, this]
    · have hc : categoryKeys.contains key = false := by simpa using hmem
      simp only [hc, Bool.false_eq_true, if_false, ite_self]
      rw [ih2]
      congr 1
      apply annotate_congr
      intro k hk
      rw [countInCategory_cons, hkey]
      have : ¬ (Except.ok key : Except JSError String) = .ok k := by
        intro heq
        exact hmem ((Except.ok.inj heq) ▸ hk)
      simp [this]

theorem generateCategoryStats_eq (plugins : List RegistryEntry)
    (h : ∀ p ∈ plugins, ∃ key, toStr p.category = .ok key) :
    generateCategoryStats plugins = .ok (annotate (countInCategory plugins)) := by
  have := foldlM_stats plugins h (fun _ => 0)
  simp only [Nat.zero_add] at this
  exact this

theorem toStr_eq_key_iff (value : JSValue) (key : String) (hv : isStringOrFalsy value = true)
    (hk : key ∈ categoryKeys) : toStr value = .ok key ↔ value = .str key := by
  have hne : key ≠ "undefined" ∧ key ≠ "null" ∧ key ≠ "false" ∧ key ≠ "0" ∧ key ≠ "NaN" := by
    refine ⟨?_, ?_, ?_, ?_, ?_⟩ <;> (rintro rfl; revert hk; decide)
  cases value with
  | undefined => simp [toStr, pure, Except.pure, hne.1.symm]
  | null => simp [toStr, pure, Except.pure, hne.2.1.symm]
  | bool b =>
    cases b
    · simp [toStr, pure, Except.pure, hne.2.2.1.symm]
    · simp [isStringOrFalsy, toBoolean] at hv
  | num text =>
    simp only [isStringOrFalsy, toBoolean, Bool.not_eq_true', Bool.and_eq_false_iff,
      bne_eq_false_iff_eq] at hv
    rcases hv with hv | hv
    · subst hv; simp [toStr, pure, Except.pure, hne.2.2.2.1.symm]
    · subst hv; simp [toStr, pure, Except.pure, hne.2.2.2.2.symm]
  | str s => simp [toStr, pure, Except.pure]
  | arr items => simp [isStringOrFalsy, toBoolean] at hv
  | obj fields => simp [isStringOrFalsy, toBoolean] at hv

/-- C9. For every collection of entries whose categories convert to a property key (every
entry the scan builds does), `generateCategoryStats` returns the catalog, key by key in
its order, each key with the name and description of the catalog and a `count` equal to
the number of entries whose category is that key; no entry gives the catalog with every
count 0, and a key no entry has keeps count 0. When the categories are strings (or
missing), an entry is counted under a key exactly when its category equals the key. -/
theorem category_stats_count (plugins : List RegistryEntry)
    (h : ∀ p ∈ plugins, ∃ key, toStr p.category = .ok key) :
    ∃ categories, generateCategoryStats plugins = .ok categories ∧
      categories.map Prod.fst = categoryKeys ∧
      categories.map (fun c => (c.1, CategoryInfo.mk c.2.name c.2.description)) = CATEGORIES ∧
      categories.map (fun c => c.2.count) = categoryKeys.map (countInCategory plugins) ∧
      (∀ key ∈ categoryKeys, (∀ p ∈ plugins, toStr p.category ≠ .ok key) →
        countInCategory plugins key = 0) ∧
      ((∀ p ∈ plugins, isStringOrFalsy p.category = true) → ∀ key ∈ categoryKeys,
        countInCategory plugins key =
          plugins.countP (fun p => decide (p.category = .str key))) := by
  refine ⟨_, generateCategoryStats_eq plugins h, annotate_keys _, ?_, ?_, ?_, ?_⟩
  · simp [annotate, List.map_map, Function.comp_def]
  · simp [annotate, categoryKeys, List.map_map, Function.comp_def]
  · intro key _ hnone
    unfold countInCategory
    rw [List.countP_eq_zero]
    intro p hp
    simpa using hnone p hp
  · intro hstr key hk
    unfold countInCategory
    apply List.countP_congr
    intro p hp
    simp only [decide_eq_true_eq]
    exact toStr_eq_key_iff _ _ (hstr p hp) hk

theorem sampleEntries_category (p : RegistryEntry) (hp : p ∈ sampleEntries) :
    ∃ key, toStr p.category = .ok key := by
  simp only [sampleEntries, List.mem_cons, List.mem_singleton, List.not_mem_nil, or_false] at hp
  rcases hp with rfl | rfl | rfl <;> exact ⟨_, rfl⟩

/-- C9 at three entries, two of category `database` and one of category `cache`. -/
theorem category_stats_count_witness :
    ∃ categories, generateCategoryStats sampleEntries = .ok categories ∧
      categories.map Prod.fst = categoryKeys ∧
      categories.map (fun c => c.2.count) = [0, 2, 1, 0, 0, 0, 0, 0] :=
  (category_stats_count sampleEntries sampleEntries_category).imp
    (fun _ hc => ⟨hc.1, hc.2.1, hc.2.2.2.1.trans (by decide)⟩)

/-! ## Sorting -/

theorem compareNames_str (host : Host) (a b : RegistryEntry) (s t : String)
    (ha : a.name = .str s) (hb : b.name = .str t) :
    compareNames host a b = .ok (host.localeCompare s t) := by
  simp [compareNames, ha, hb, toStr, bind, Except.bind, pure, Except.pure]

/-- Whatever the plan and the comparator, the array a sort returns is the array it was
given with its positions permuted. -/
theorem SortPlan.run_perm {α ε : Type} {n : Nat} (compare : α → α → Except ε Int)
    (plan : SortPlan n) :
    ∀ (array result : Fin n → α), plan.run compare array = .ok result →
      ∃ σ : Equiv.Perm (Fin n), result = array ∘ σ := by
  induction plan with
  | done =>
    intro array result h
    simp only [SortPlan.run, pure, Except.pure, Except.ok.injEq] at h
    exact ⟨Equiv.refl _, by rw [← h]; rfl⟩
  | compare a b next ih =>
    intro array result h
    simp only [SortPlan.run, bind, Except.bind] at h
    cases hc : compare (array a) (array b) with
    | error e => rw [hc] at h; simp at h
    | ok order =>
      rw [hc] at h
      exact ih order array result h
  | swap i j next ih =>
    intro array result h
    simp only [SortPlan.run] at h
    obtain ⟨σ, hσ⟩ := ih _ result h
    refine ⟨σ.trans (Equiv.swap i j), ?_⟩
    rw [hσ]
    funext k
    simp only [Function.comp_apply, Equiv.trans_apply]
    by_cases h1 : σ k = i
    · rw [h1, if_pos rfl, Equiv.swap_apply_left]
    · by_cases h2 : σ k = j
      · rw [h2, Equiv.swap_apply_right]
        by_cases h3 : j = i
        · rw [if_pos h3, h3]
        · rw [if_neg h3, if_pos rfl]
      · rw [if_neg h1, if_neg h2, Equiv.swap_apply_of_ne_of_ne h1 h2]

/-- On every engine, the array a sort returns is a permutation of the array it was
given. -/
theorem arraySort_perm {α ε : Type} (host : Host) (compare : α → α → Except ε Int)
    (array sorted : List α) (h : arraySort host compare array = .ok sorted) :
    sorted.Perm array := by
  unfold arraySort at h
  cases hr : (host.sortPlan array.length).run compare array.get with
  | error e => rw [hr] at h; simp [Except.map] at h
  | ok result =>
    rw [hr] at h
    simp only [Except.map, Except.ok.injEq] at h
    obtain ⟨σ, hσ⟩ := SortPlan.run_perm compare _ _ _ hr
    rw [← h, hσ]
    have := Equiv.Perm.ofFn_comp_perm σ array.get
    rwa [List.ofFn_get] at this

/-- A sort returns when the comparator returns on the elements of the array. -/
theorem SortPlan.run_returns {α ε : Type} {n : Nat} (compare : α → α → Except ε Int)
    (good : α → Prop) (hgood : ∀ x y, good x → good y → ∃ order, compare x y = .ok order)
    (plan : SortPlan n) :
    ∀ array : Fin n → α, (∀ k, good (array k)) →
      ∃ result, plan.run compare array = .ok result := by
  induction plan with
  | done => intro array _; exact ⟨array, rfl⟩
  | compare a b next ih =>
    intro array h
    obtain ⟨order, ho⟩ := hgood _ _ (h a) (h b)
    obtain ⟨result, hr⟩ := ih order array h
    refine ⟨result, ?_⟩
    simp only [SortPlan.run, bind, Except.bind, ho]
    exact hr
  | swap i j next ih =>
    intro array h
    apply ih
    intro k
    show good (if k = i then array j else if k = j then array i else array k)
    split
    · exact h j
    · split
      · exact h i
      · exact h k

/-- On every engine the sort by name returns when every name is a string. -/
theorem arraySort_returns (host : Host) (plugins : List RegistryEntry)
    (h : ∀ p ∈ plugins, ∃ s, p.name = .str s) :
    ∃ sorted, arraySort host (compareNames host) plugins = .ok sorted := by
  obtain ⟨result, hr⟩ := SortPlan.run_returns (compareNames host)
    (fun p => ∃ s, p.name = .str s)
    (fun x y ⟨s, hs⟩ ⟨t, ht⟩ => ⟨_, compareNames_str host x y s t hs ht⟩)
    (host.sortPlan plugins.length) plugins.get (fun k => h _ (List.get_mem _ _ _))
  exact ⟨List.ofFn result, by simp [arraySort, hr, Except.map]⟩

/-- A sort carried out on the images of the elements under `f`, when the comparator does
not tell an element from its image. -/
theorem SortPlan.run_map {α β ε : Type} {n : Nat} (compare : α → α → Except ε Int)
    (compareImages : β → β → Except ε Int) (f : α → β)
    (hf : ∀ a b, compareImages (f a) (f b) = compare a b) (plan : SortPlan n) :
    ∀ array : Fin n → α, plan.run compareImages (f ∘ array) =
      (plan.run compare array).map (fun result => f ∘ result) := by
  induction plan with
  | done => intro array; rfl
  | compare a b next ih =>
    intro array
    simp only [SortPlan.run, bind, Except.bind, Function.comp_apply, hf]
    cases compare (array a) (array b) with
    | error e => rfl
    | ok order => exact ih order array
  | swap i j next ih =>
    intro array
    simp only [SortPlan.run]
    rw [← ih]
    congr 1
    funext k
    simp only [Function.comp_apply]
    split
    · rfl
    · split <;> rfl

theorem arraySort_of_length {α ε : Type} (host : Host) (compare : α → α → Except ε Int)
    (array : List α) (n : Nat) (h : n = array.length) :
    arraySort host compare array =
      ((host.sortPlan n).run compare (fun k => array.get (k.cast h))).map List.ofFn := by
  subst h
  rfl

/-- The sort of the images under `f` is the image of the sort. -/
theorem arraySort_map {α β ε : Type} (host : Host) (compare : α → α → Except ε Int)
    (compareImages : β → β → Except ε Int) (f : α → β)
    (hf : ∀ a b, compareImages (f a) (f b) = compare a b) (array : List α) :
    arraySort host compareImages (array.map f) =
      (arraySort host compare array).map (List.map f) := by
  rw [arraySort_of_length host compareImages (array.map f) array.length
    (List.length_map array f).symm]
  have hget : (fun k : Fin array.length =>
      (array.map f).get (k.cast (List.length_map array f).symm)) = f ∘ array.get := by
    funext k
    simp
  rw [hget, SortPlan.run_map compare compareImages f hf]
  unfold arraySort
  cases (host.sortPlan array.length).run compare array.get with
  | error e => rfl
  | ok result =>
    simp only [Except.map, Except.ok.injEq]
    exact (List.map_ofFn result f).symm


/-- C10, the failing input. Two manifests pass validation, one named `zeta` and one with
`displayName: 123`, which YAML loads as a number and no rule of the validator reads; the
entries built from them are named `Zeta` and 123. With the file of `zeta` found first,
the sort of line 260 calls `a.name.localeCompare` with the entry named 123 as `a`: a
number has no such method, the call throws a `TypeError`, and the run ends with status 1
without a registry. With the other file found first the comparator is only called with
`Zeta` as `a`, and the registry is written with the names 123 and `Zeta`, of which the
first is not a string: comparing it to the one after it throws, on every host. -/
theorem sort_throws_on_numeric_display_name :
    passesValidation zetaFile = true ∧
    passesValidation numericDisplayNameFile = true ∧
    (scanLoop sampleHost false [zetaFile, numericDisplayNameFile]).plugins.map
      (fun p => p.name) = [.str "Zeta", .num "123"] ∧
    generateRegistry sampleHost false [zetaFile, numericDisplayNameFile] =
      .error (.thrown (.typeError "localeCompare is not a function")) ∧
    runScript sampleHost false [zetaFile, numericDisplayNameFile] =
      { exitCode := 1, written := none } ∧
    (generateRegistry sampleHost false [numericDisplayNameFile, zetaFile]).map
      (fun registry => registry.plugins.map (fun p => p.name)) =
      .ok [.num "123", .str "Zeta"] ∧
    (runScript sampleHost false [numericDisplayNameFile, zetaFile]).exitCode = 0 ∧
    (∀ (host : Host) (a b : RegistryEntry), a.name = .num "123" →
      compareNames host a b = .error (.typeError "localeCompare is not a function")) := by
  refine ⟨by decide, by decide, by decide, by decide, by decide, by decide, by decide, ?_⟩
  intro host a b h
  simp [compareNames, h, throw, throwThe, MonadExceptOf.throw]

/-! ## The entries a scan builds -/

theorem toStr_of_falsy (value : JSValue) (h : toBoolean value = false) :
    ∃ t, toStr value = .ok t := by
  cases value with
  | undefined => exact ⟨_, rfl⟩
  | null => exact ⟨_, rfl⟩
  | bool b => cases b <;> exact ⟨_, rfl⟩
  | num text => exact ⟨_, rfl⟩
  | str s => exact ⟨_, rfl⟩
  | arr items => simp [toBoolean] at h
  | obj fields => simp [toBoolean] at h

theorem checkCategory_ok_converts (manifest : JSValue) (errors e : List String)
    (h : checkCategory manifest errors = .ok e) :
    ∃ category, getProp manifest "category" = .ok category ∧
      ∃ key, toStr category = .ok key := by
  unfold checkCategory at h
  cases hg : getProp manifest "category" with
  | error err => rw [hg] at h; simp [bind, Except.bind] at h
  | ok category =>
    refine ⟨category, rfl, ?_⟩
    rw [hg] at h
    simp only [bind, Except.bind] at h
    cases hb : toBoolean category
    · exact toStr_of_falsy category hb
    · rw [hb] at h
      cases ht : toStr category with
      | error err => rw [ht] at h; simp at h
      | ok key => exact ⟨key, rfl⟩

theorem validate_ok_category (manifest : JSValue) (filePath : String) (verdict : Verdict)
    (h : validatePluginManifest manifest filePath = .ok verdict) :
    ∃ category, getProp manifest "category" = .ok category ∧
      ∃ key, toStr category = .ok key := by
  unfold validatePluginManifest at h
  simp only [bind, Except.bind] at h
  cases h1 : checkRequiredFields manifest [] with
  | error err => rw [h1] at h; simp at h
  | ok e1 =>
    rw [h1] at h
    simp only [] at h
    cases h2 : checkApiVersion manifest e1 with
    | error err => rw [h2] at h; simp at h
    | ok e2 =>
      rw [h2] at h
      simp only [] at h
      cases h3 : checkCategory manifest e2 with
      | error err => rw [h3] at h; simp at h
      | ok e3 => exact checkCategory_ok_converts manifest e2 e3 h3

theorem buildRegistryEntry_category (host : Host) (manifest : JSValue)
    (relativePath now : String) (entry : RegistryEntry)
    (h : buildRegistryEntry host manifest relativePath now = .ok entry) :
    getProp manifest "category" = .ok entry.category ∧ entry.downloads = 0 := by
  unfold buildRegistryEntry at h
  simp only [bind, Except.bind, pure, Except.pure] at h
  repeat' split at h
  all_goals cases h
  all_goals exact ⟨by assumption, rfl⟩

/-- One turn of the loop leaves `plugins` as it is or appends the entry built from a
manifest that the validator returned a verdict for. -/
theorem processFile_plugins (host : Host) (validateOnly : Bool) (state : ScanState)
    (file : PluginFile) :
    (processFile host validateOnly state file).plugins = state.plugins ∨
    ∃ manifest verdict entry, file.loaded = .ok manifest ∧
      validatePluginManifest manifest file.filePath = .ok verdict ∧
      buildRegistryEntry host manifest file.relativePath (host.clock state.clockReads) =
        .ok entry ∧
      (processFile host validateOnly state file).plugins = state.plugins ++ [entry] := by
  unfold processFile
  cases hl : file.loaded with
  | error e => left; rfl
  | ok manifest =>
    simp only []
    cases hv : validatePluginManifest manifest file.filePath with
    | error e => left; rfl
    | ok verdict =>
      simp only []
      split
      · left
        split <;> rfl
      · cases hb : buildRegistryEntry host manifest file.relativePath
            (host.clock state.clockReads) with
        | error e =>
          left
          simp only []
          split <;> rfl
        | ok entry =>
          right
          refine ⟨manifest, verdict, entry, rfl, hv, hb, ?_⟩
          simp only []
          split <;> rfl

theorem foldl_processFile_plugins (host : Host) (validateOnly : Bool)
    (P : RegistryEntry → Prop)
    (hP : ∀ manifest filePath verdict relativePath now entry,
      validatePluginManifest manifest filePath = .ok verdict →
      buildRegistryEntry host manifest relativePath now = .ok entry → P entry) :
    ∀ (files : List PluginFile) (state : ScanState), (∀ p ∈ state.plugins, P p) →
      ∀ p ∈ (files.foldl (processFile host validateOnly) state).plugins, P p := by
  intro files
  induction files with
  | nil => intro state h; exact h
  | cons file files ih =>
    intro state h
    rw [List.foldl_cons]
    apply ih
    rcases processFile_plugins host validateOnly state file with heq | ⟨m, v, e, -, hv, hb, heq⟩
    · rw [heq]; exact h
    · rw [heq]
      intro p hp
      rcases List.mem_append.1 hp with hp | hp
      · exact h p hp
      · rw [List.mem_singleton] at hp
        exact hp ▸ hP m _ v _ _ e hv hb

/-- Every entry a scan builds has a `category` that converts to a property key, and
`downloads` 0. -/
theorem scanLoop_entries (host : Host) (validateOnly : Bool) (files : List PluginFile) :
    ∀ p ∈ (scanLoop host validateOnly files).plugins,
      (∃ key, toStr p.category = .ok key) ∧ p.downloads = 0 := by
  apply foldl_processFile_plugins host validateOnly
    (fun p => (∃ key, toStr p.category = .ok key) ∧ p.downloads = 0)
  · intro manifest filePath verdict relativePath now entry hv hb
    obtain ⟨category, hc, hkey⟩ := validate_ok_category manifest filePath verdict hv
    obtain ⟨hc2, hd⟩ := buildRegistryEntry_category host manifest relativePath now entry hb
    rw [hc] at hc2
    exact ⟨(Except.ok.inj hc2) ▸ hkey, hd⟩
  · intro p hp
    exact absurd hp (List.not_mem_nil _)

/-! ## The verdict on any document -/

theorem checkRequiredFields_append (manifest : JSValue) (errors : List String) :
    checkRequiredFields manifest errors =
      (checkRequiredFields manifest []).map (errors ++ ·) := by
  have hplain : ∀ m : JSValue, (∀ key, getProp m key = .ok .undefined) →
      ∀ e, checkRequiredFields m e = .ok (e ++ requiredFields.map missingFieldMessage) := by
    intro m hm e
    have := foldlM_push
      (fun errors field => do
        let value ← getProp m field
        if !toBoolean value then pure (errors ++ [missingFieldMessage field]) else pure errors)
      (fun _ => true) missingFieldMessage
      (by intro e a; simp only [hm, bind, Except.bind, pure, Except.pure]; rfl)
      requiredFields e
    simpa [checkRequiredFields] using this
  cases manifest with
  | undefined => rfl
  | null => rfl
  | obj fields =>
    rw [checkRequiredFields_obj, checkRequiredFields_obj]
    simp [Except.map]
  | bool b =>
    rw [hplain (.bool b) (fun _ => rfl) errors, hplain (.bool b) (fun _ => rfl) []]
    simp [Except.map]
  | num text =>
    rw [hplain (.num text) (fun _ => rfl) errors, hplain (.num text) (fun _ => rfl) []]
    simp [Except.map]
  | str s =>
    rw [hplain (.str s) (fun _ => rfl) errors, hplain (.str s) (fun _ => rfl) []]
    simp [Except.map]
  | arr items =>
    rw [hplain (.arr items) (fun _ => rfl) errors, hplain (.arr items) (fun _ => rfl) []]
    simp [Except.map]

/-- The validator as the five rules run one after the other, each from an empty array. -/
theorem validate_eq (manifest : JSValue) (filePath : String) :
    validatePluginManifest manifest filePath =
      (do
        let e1 ← checkRequiredFields manifest []
        let e2 ← checkApiVersion manifest []
        let e3 ← checkCategory manifest []
        let e4 ← checkVersion manifest []
        let e5 ← checkProvides manifest []
        if (e1 ++ e2 ++ e3 ++ e4 ++ e5).length > 0 then
          pure { valid := false, violations := e1 ++ e2 ++ e3 ++ e4 ++ e5 }
        else
          let name ← getProp manifest "name"
          let _ ← toStr name
          pure { valid := true, violations := e1 ++ e2 ++ e3 ++ e4 ++ e5 }) := by
  unfold validatePluginManifest
  simp only [bind, Except.bind]
  cases checkRequiredFields manifest [] with
  | error e => rfl
  | ok e1 =>
    simp only []
    rw [checkApiVersion_append]
    cases checkApiVersion manifest [] with
    | error e => rfl
    | ok e2 =>
      simp only [Except.map]
      rw [checkCategory_append]
      cases checkCategory manifest [] with
      | error e => rfl
      | ok e3 =>
        simp only [Except.map]
        rw [checkVersion_append]
        cases checkVersion manifest [] with
        | error e => rfl
        | ok e4 =>
          simp only [Except.map]
          rw [checkProvides_append]
          cases checkProvides manifest [] with
          | error e => rfl
          | ok e5 => rfl

theorem validate_ok (manifest : JSValue) (filePath : String) (verdict : Verdict)
    (h : validatePluginManifest manifest filePath = .ok verdict) :
    ∃ e1 e2 e3 e4 e5 : List String,
      checkRequiredFields manifest [] = .ok e1 ∧ checkApiVersion manifest [] = .ok e2 ∧
      checkCategory manifest [] = .ok e3 ∧ checkVersion manifest [] = .ok e4 ∧
      checkProvides manifest [] = .ok e5 ∧
      verdict.violations = e1 ++ e2 ++ e3 ++ e4 ++ e5 ∧
      (verdict.valid = true ↔ verdict.violations = []) ∧
      (verdict.valid = true → ∃ name t, getProp manifest "name" = .ok name ∧
        toStr name = .ok t) := by
  rw [validate_eq] at h
  simp only [bind, Except.bind] at h
  cases h1 : checkRequiredFields manifest [] with
  | error e => rw [h1] at h; simp at h
  | ok e1 =>
  cases h2 : checkApiVersion manifest [] with
  | error e => rw [h1, h2] at h; simp at h
  | ok e2 =>
  cases h3 : checkCategory manifest [] with
  | error e => rw [h1, h2, h3] at h; simp at h
  | ok e3 =>
  cases h4 : checkVersion manifest [] with
  | error e => rw [h1, h2, h3, h4] at h; simp at h
  | ok e4 =>
  cases h5 : checkProvides manifest [] with
  | error e => rw [h1, h2, h3, h4, h5] at h; simp at h
  | ok e5 =>
    rw [h1, h2, h3, h4, h5] at h
    simp only [] at h
    refine ⟨e1, e2, e3, e4, e5, rfl, rfl, rfl, rfl, rfl, ?_⟩
    split at h
    · rename_i hlen
      simp only [pure, Except.pure, Except.ok.injEq] at h
      subst h
      refine ⟨rfl, ?_, ?_⟩
      · constructor
        · intro hc; exact Bool.noConfusion hc
        · intro hnil
          change e1 ++ e2 ++ e3 ++ e4 ++ e5 = [] at hnil
          rw [hnil] at hlen
          simp at hlen
      · intro hc; exact Bool.noConfusion hc
    · rename_i hlen
      have hnil : e1 ++ e2 ++ e3 ++ e4 ++ e5 = [] :=
        List.eq_nil_of_length_eq_zero (by omega)
      cases hg : getProp manifest "name" with
      | error e => rw [hg] at h; simp at h
      | ok name =>
        rw [hg] at h
        simp only [] at h
        cases hn : toStr name with
        | error e => rw [hn] at h; simp at h
        | ok t =>
          rw [hn] at h
          simp only [pure, Except.pure, Except.ok.injEq] at h
          subst h
          exact ⟨rfl, ⟨fun _ => hnil, fun _ => rfl⟩, fun _ => ⟨name, t, rfl, hn⟩⟩

/-- C15. Every verdict the validator returns is valid if and only if its list of
violations is empty, and that list is the concatenation, in the order required fields,
apiVersion, category, version, provides, of what each rule pushes when run on its own
from an empty array. Conversely, when the five rules return on their own, the validator
returns the concatenation of their violations: an invalid verdict when there is one,
and a valid one when there is none (line 94 then prints `manifest.name`). One call can
report several violations: six for `faultyManifest`. -/
theorem verdict_concatenates_rules (manifest : JSValue) (filePath : String) :
    (∀ verdict, validatePluginManifest manifest filePath = .ok verdict →
      (verdict.valid = true ↔ verdict.violations = []) ∧
      ∃ e1 e2 e3 e4 e5 : List String,
        checkRequiredFields manifest [] = .ok e1 ∧ checkApiVersion manifest [] = .ok e2 ∧
        checkCategory manifest [] = .ok e3 ∧ checkVersion manifest [] = .ok e4 ∧
        checkProvides manifest [] = .ok e5 ∧
        verdict.violations = e1 ++ e2 ++ e3 ++ e4 ++ e5) ∧
    (∀ e1 e2 e3 e4 e5 : List String,
      checkRequiredFields manifest [] = .ok e1 → checkApiVersion manifest [] = .ok e2 →
      checkCategory manifest [] = .ok e3 → checkVersion manifest [] = .ok e4 →
      checkProvides manifest [] = .ok e5 →
      (e1 ++ e2 ++ e3 ++ e4 ++ e5 ≠ [] →
        validatePluginManifest manifest filePath =
          .ok { valid := false, violations := e1 ++ e2 ++ e3 ++ e4 ++ e5 }) ∧
      (e1 ++ e2 ++ e3 ++ e4 ++ e5 = [] → ∀ name text,
        getProp manifest "name" = .ok name → toStr name = .ok text →
        validatePluginManifest manifest filePath = .ok { valid := true, violations := [] })) ∧
    validatePluginManifest (.obj faultyManifest) "plugin.yaml" =
      .ok { valid := false, violations :=
        [ "Missing required field: description", "Missing required field: author",
          "Invalid apiVersion format: 0.1 (expected format: v0.1)",
          "Invalid category: unknown_cat. Must be one of: " ++
            "framework, database, cache, message_queue, proxy, cicd, orchestration, infrastructure",
          "Invalid version format: 1.0 (expected format: 1.0.0)",
          "provides must contain either frameworks or service_kinds" ] } := by
  refine ⟨?_, ?_, by decide⟩
  · intro verdict h
    obtain ⟨e1, e2, e3, e4, e5, h1, h2, h3, h4, h5, hv, hvalid, -⟩ :=
      validate_ok manifest filePath verdict h
    exact ⟨hvalid, e1, e2, e3, e4, e5, h1, h2, h3, h4, h5, hv⟩
  · intro e1 e2 e3 e4 e5 h1 h2 h3 h4 h5
    rw [validate_eq]
    simp only [h1, h2, h3, h4, h5, bind, Except.bind]
    constructor
    · intro hne
      have hlen : (e1 ++ e2 ++ e3 ++ e4 ++ e5).length > 0 :=
        List.length_pos.2 hne
      rw [if_pos hlen]
      rfl
    · intro hnil name text hname htext
      rw [hnil, hname]
      simp only [htext]
      rfl

/-! ## The strict mode -/

theorem passesValidation_iff (file : PluginFile) :
    passesValidation file = true ↔
      ∃ manifest verdict, file.loaded = .ok manifest ∧
        validatePluginManifest manifest file.filePath = .ok verdict ∧ verdict.valid = true := by
  unfold passesValidation
  cases hl : file.loaded with
  | error e => simp
  | ok manifest =>
    cases hv : validatePluginManifest manifest file.filePath with
    | error e => simp [hv]
    | ok verdict => simp [hv]

/-- A file that does not pass validation is counted as invalid once, in strict mode, and
nothing is built for it. -/
theorem processFile_strict_of_not_passes (host : Host) (state : ScanState) (file : PluginFile)
    (h : passesValidation file = false) :
    processFile host true state file = { state with invalidCount := state.invalidCount + 1 } := by
  unfold passesValidation at h
  unfold processFile
  cases hl : file.loaded with
  | error e => rfl
  | ok manifest =>
    rw [hl] at h
    simp only [] at h ⊢
    cases hv : validatePluginManifest manifest file.filePath with
    | error e => rfl
    | ok verdict =>
      rw [hv] at h
      simp only [] at h ⊢
      simp [h]

/-- A file that passes validation is counted as valid, in either mode, and its entry is
built: when the builder throws, the file is counted as invalid as well. -/
theorem processFile_of_passes (host : Host) (validateOnly : Bool) (state : ScanState)
    (file : PluginFile) (manifest : JSValue) (verdict : Verdict)
    (hl : file.loaded = .ok manifest)
    (hv : validatePluginManifest manifest file.filePath = .ok verdict)
    (hvalid : verdict.valid = true) :
    processFile host validateOnly state file =
      match buildRegistryEntry host manifest file.relativePath (host.clock state.clockReads) with
      | .error _ =>
          { state with validCount := state.validCount + 1
                       invalidCount := state.invalidCount + 1 }
      | .ok entry =>
          { state with validCount := state.validCount + 1
                       plugins := state.plugins ++ [entry]
                       clockReads := state.clockReads + 1 } := by
  unfold processFile
  rw [hl]
  simp only [hv, hvalid]
  cases buildRegistryEntry host manifest file.relativePath (host.clock state.clockReads) <;>
    simp

theorem checkRequiredFields_nil_obj (manifest : JSValue)
    (h : checkRequiredFields manifest [] = .ok []) :
    ∃ fields, manifest = .obj fields ∧ ∀ field ∈ requiredFields, isMissing fields field = false := by
  have hplain : ∀ m : JSValue, (∀ key, getProp m key = .ok .undefined) →
      checkRequiredFields m [] ≠ .ok [] := by
    intro m hm
    have := foldlM_push
      (fun errors field => do
        let value ← getProp m field
        if !toBoolean value then pure (errors ++ [missingFieldMessage field]) else pure errors)
      (fun _ => true) missingFieldMessage
      (by intro e a; simp only [hm, bind, Except.bind, pure, Except.pure]; rfl)
      requiredFields []
    intro hc
    unfold checkRequiredFields at hc
    rw [this] at hc
    simp [requiredFields] at hc
  cases manifest with
  | undefined => exact absurd h (by decide)
  | null => exact absurd h (by decide)
  | bool b => exact absurd h (hplain (.bool b) (fun _ => rfl))
  | num text => exact absurd h (hplain (.num text) (fun _ => rfl))
  | str s => exact absurd h (hplain (.str s) (fun _ => rfl))
  | arr items => exact absurd h (hplain (.arr items) (fun _ => rfl))
  | obj fields =>
    refine ⟨fields, rfl, ?_⟩
    rw [checkRequiredFields_obj] at h
    have hnil := Except.ok.inj h
    simp only [List.nil_append, List.map_eq_nil_iff, List.filter_eq_nil_iff] at hnil
    intro field hf
    simpa using hnil field hf

/-- A manifest that passed validation is an object with a truthy `name`. -/
theorem valid_manifest_name (manifest : JSValue) (filePath : String) (verdict : Verdict)
    (hv : validatePluginManifest manifest filePath = .ok verdict) (hvalid : verdict.valid = true) :
    ∃ fields, manifest = .obj fields ∧ ∀ field ∈ requiredFields, isMissing fields field = false := by
  obtain ⟨e1, e2, e3, e4, e5, h1, -, -, -, -, hvi, hiff, -⟩ := validate_ok manifest filePath verdict hv
  have hnil := hiff.1 hvalid
  rw [hvi] at hnil
  simp only [List.append_eq_nil] at hnil
  rw [hnil.1.1.1.1] at h1
  exact checkRequiredFields_nil_obj manifest h1

/-- The builder returns an entry for a manifest that passed validation when its `name`
is a string. -/
theorem build_ok_of_valid (host : Host) (manifest : JSValue) (filePath : String)
    (verdict : Verdict) (relativePath now : String)
    (hv : validatePluginManifest manifest filePath = .ok verdict) (hvalid : verdict.valid = true)
    (hname : ∀ name, getProp manifest "name" = .ok name → isStringOrFalsy name = true) :
    ∃ entry, buildRegistryEntry host manifest relativePath now = .ok entry := by
  obtain ⟨fields, rfl, hpresent⟩ := valid_manifest_name manifest filePath verdict hv hvalid
  have htruthy : toBoolean (fields.get "name") = true := by
    have := hpresent "name" (by decide)
    simpa [isMissing] using this
  rcases str_or_falsy _ (hname _ rfl) with hf | ⟨s, hs, -⟩
  · rw [htruthy] at hf; exact Bool.noConfusion hf
  · cases hd : toBoolean (fields.get "displayName")
    · obtain ⟨entry, he, -⟩ := buildRegistryEntry_ok host fields relativePath now _
        (entryName_of_name host fields s hd hs)
      exact ⟨entry, he⟩
    · obtain ⟨entry, he, -⟩ := buildRegistryEntry_ok host fields relativePath now _
        (entryName_of_displayName host fields hd)
      exact ⟨entry, he⟩

theorem foldl_processFile_strict (host : Host) (files : List PluginFile)
    (hname : ∀ file ∈ files, ∀ manifest, file.loaded = .ok manifest →
      ∀ name, getProp manifest "name" = .ok name → isStringOrFalsy name = true) :
    ∀ state : ScanState,
      (files.foldl (processFile host true) state).invalidCount =
        state.invalidCount + files.countP (fun f => !passesValidation f) ∧
      ∀ entry ∈ (files.foldl (processFile host true) state).plugins,
        entry ∈ state.plugins ∨ ∃ file ∈ files, BuiltFromValid host file entry := by
  induction files with
  | nil => intro state; exact ⟨by simp, fun entry h => Or.inl h⟩
  | cons file files ih =>
    intro state
    have ih2 := ih (fun f hf => hname f (List.mem_cons_of_mem _ hf))
    rw [List.foldl_cons]
    cases hp : passesValidation file
    · rw [processFile_strict_of_not_passes host state file hp]
      obtain ⟨hcount, hentries⟩ := ih2 { state with invalidCount := state.invalidCount + 1 }
      refine ⟨?_, ?_⟩
      · rw [hcount, List.countP_cons]
        simp only [hp, Bool.not_false, if_true]
        omega
      · intro entry he
        rcases hentries entry he with h | ⟨f, hf, hb⟩
        · exact Or.inl h
        · exact Or.inr ⟨f, List.mem_cons_of_mem _ hf, hb⟩
    · obtain ⟨manifest, verdict, hl, hv, hvalid⟩ := (passesValidation_iff file).1 hp
      obtain ⟨built, hbuilt⟩ := build_ok_of_valid host manifest file.filePath verdict
        file.relativePath (host.clock state.clockReads) hv hvalid
        (hname file (List.mem_cons_self _ _) manifest hl)
      rw [processFile_of_passes host true state file manifest verdict hl hv hvalid, hbuilt]
      simp only []
      obtain ⟨hcount, hentries⟩ := ih2 { state with
        validCount := state.validCount + 1
        plugins := state.plugins ++ [built]
        clockReads := state.clockReads + 1 }
      refine ⟨?_, ?_⟩
      · rw [hcount, List.countP_cons]
        simp [hp]
      · intro entry he
        rcases hentries entry he with h | ⟨f, hf, hb⟩
        · rcases List.mem_append.1 h with h | h
          · exact Or.inl h
          · rw [List.mem_singleton] at h
            exact Or.inr ⟨file, List.mem_cons_self _ _, manifest, verdict, _, hl, hv, hvalid,
              h ▸ hbuilt⟩
        · exact Or.inr ⟨f, List.mem_cons_of_mem _ hf, hb⟩

/-- The strict mode on files whose manifests have a string `name` or none: every entry the
scan builds comes from a manifest that parsed and passed validation (none is built for a
manifest that fails it), the run ends with exit status 1 if at least one file did not
pass validation (its manifest failed validation or did not parse) and with exit status 0
otherwise, and in both cases `generateRegistry` is left before line 277 and no registry
is written. -/
theorem strict_mode_outcome (host : Host) (files : List PluginFile)
    (hname : ∀ file ∈ files, ∀ manifest, file.loaded = .ok manifest →
      ∀ name, getProp manifest "name" = .ok name → isStringOrFalsy name = true) :
    (∀ entry ∈ (scanLoop host true files).plugins,
      ∃ file ∈ files, BuiltFromValid host file entry) ∧
    generateRegistry host true files =
      .error (.exit (if files.any (fun f => !passesValidation f) then 1 else 0)) ∧
    runScript host true files =
      { exitCode := if files.any (fun f => !passesValidation f) then 1 else 0
        written := none } := by
  obtain ⟨hcount, hentries⟩ := foldl_processFile_strict host files hname
    { plugins := [], validCount := 0, invalidCount := 0, clockReads := 0 }
  have hinv : (scanLoop host true files).invalidCount =
      files.countP (fun f => !passesValidation f) := by
    unfold scanLoop
    rw [hcount]
    simp
  have hscan : scanPlugins host true files =
      .error (.exit (if files.any (fun f => !passesValidation f) then 1 else 0)) := by
    unfold scanPlugins
    simp only [if_true]
    by_cases hany : files.any (fun f => !passesValidation f) = true
    · have hpos : (scanLoop host true files).invalidCount > 0 := by
        rw [hinv]
        show 0 < _
        rw [List.countP_pos_iff]
        simpa [List.any_eq_true] using hany
      rw [if_pos hpos, if_pos hany]
      rfl
    · have hzero : ¬ (scanLoop host true files).invalidCount > 0 := by
        rw [hinv]
        show ¬ 0 < _
        rw [List.countP_pos_iff]
        simpa [List.any_eq_true] using hany
      rw [if_neg hzero, if_neg hany]
      rfl
  have hgen : generateRegistry host true files =
      .error (.exit (if files.any (fun f => !passesValidation f) then 1 else 0)) := by
    unfold generateRegistry
    rw [hscan]
    rfl
  refine ⟨?_, hgen, ?_⟩
  · intro entry he
    rcases hentries entry he with h | h
    · exact absurd h (List.not_mem_nil _)
    · exact h
  · unfold runScript
    rw [hgen]

theorem twoFiles_names (file : PluginFile) (hf : file ∈ twoFiles) (manifest : JSValue)
    (hl : file.loaded = .ok manifest) (name : JSValue)
    (hn : getProp manifest "name" = .ok name) : isStringOrFalsy name = true := by
  simp only [twoFiles, List.mem_cons, List.mem_singleton, List.not_mem_nil, or_false] at hf
  rcases hf with rfl | rfl
  · cases Except.ok.inj hl
    cases Except.ok.inj hn
    decide
  · cases Except.ok.inj hl
    cases Except.ok.inj hn
    decide

/-- The strict run at two files, one with a valid manifest and one whose manifest lacks
`name`, ends with status 1 and writes nothing; at the valid file alone it ends with
status 0. -/
theorem strict_mode_outcome_example :
    runScript sampleHost true twoFiles = { exitCode := 1, written := none } ∧
    generateRegistry sampleHost true twoFiles = .error (.exit 1) ∧
    runScript sampleHost true [postgresFile (manifestWith [])] =
      { exitCode := 0, written := none } :=
  have h := strict_mode_outcome sampleHost twoFiles twoFiles_names
  ⟨h.2.2.trans (by decide), h.2.1.trans (by decide), by decide⟩

/-- C11, the failing input. In strict mode the single file whose manifest has the number
123 as `name` parses and passes validation, and the run still ends with exit status 1:
line 146 throws on `manifest.name.charAt` and the `catch` clause counts the file as
invalid. No registry is written. -/
theorem strict_run_fails_on_valid_manifest :
    (postgresFile manifestWithNumericName).loaded = .ok (.obj manifestWithNumericName) ∧
    validatePluginManifest (.obj manifestWithNumericName)
      "/repo/plugins/database/postgres/plugin.yaml" = .ok { valid := true, violations := [] } ∧
    passesValidation (postgresFile manifestWithNumericName) = true ∧
    buildRegistryEntry sampleHost (.obj manifestWithNumericName) "plugins/database/postgres"
      "2024-01-01T00:00:00.000Z" = .error (.typeError "charAt is not a function") ∧
    runScript sampleHost true [postgresFile manifestWithNumericName] =
      { exitCode := 1, written := none } := by
  decide

/-! ## The fields of a built entry -/

/-- The entry the builder returns for an object: every field of lines 143-190. -/
theorem buildRegistryEntry_fields (host : Host) (fields : JSFields)
    (relativePath now : String) (entry : RegistryEntry)
    (h : buildRegistryEntry host (.obj fields) relativePath now = .ok entry) :
    entryName host (.obj fields) = .ok entry.name ∧
    entry.homepage = jsOr (fields.get "homepage")
      (.str (REPOSITORY_URL ++ "/tree/main/" ++ normalizePath relativePath)) ∧
    entry.license = jsOr (fields.get "license") (.str "MIT") ∧
    entry.provides = jsOr (fields.get "provides") defaultProvides ∧
    entry.requires = jsOr (fields.get "requires") (.obj .nil) ∧
    entry.tags = jsOr (fields.get "tags") (.arr .nil) ∧
    entry.icon = jsOr (fields.get "icon") (.str "icon.png") ∧
    entry.path = normalizePath relativePath ∧
    entry.documentation =
      (if toBoolean (fields.get "documentation") then some (fields.get "documentation")
       else none) := by
  simp only [buildRegistryEntry, getProp_obj, bind, Except.bind, pure, Except.pure] at h
  cases hn : entryName host (.obj fields) with
  | error e => rw [hn] at h; simp at h
  | ok name =>
    rw [hn] at h
    simp only [Except.ok.injEq] at h
    subst h
    exact ⟨rfl, rfl, rfl, rfl, rfl, rfl, rfl, rfl, rfl⟩

theorem jsOr_truthy (a b : JSValue) (h : toBoolean a = true) : jsOr a b = a := by
  simp [jsOr, h]

theorem jsOr_falsy (a b : JSValue) (h : toBoolean a = false) : jsOr a b = b := by
  simp [jsOr, h]

/-- The builder returns an entry for every object with a string `name`. -/
theorem buildRegistryEntry_of_name (host : Host) (fields : JSFields) (n relativePath now : String)
    (h : fields.get "name" = .str n) :
    ∃ entry, buildRegistryEntry host (.obj fields) relativePath now = .ok entry := by
  cases hd : toBoolean (fields.get "displayName")
  · obtain ⟨entry, he, -⟩ := buildRegistryEntry_ok host fields relativePath now _
      (entryName_of_name host fields n hd h)
    exact ⟨entry, he⟩
  · obtain ⟨entry, he, -⟩ := buildRegistryEntry_ok host fields relativePath now _
      (entryName_of_displayName host fields hd)
    exact ⟨entry, he⟩

theorem normalizePath_toList (relativePath : String) :
    (normalizePath relativePath).toList =
      relativePath.toList.map (fun c => if c = '\\' then '/' else c) := by
  unfold normalizePath
  rw [String.map_eq]
  rfl

/-- C12. For every manifest and every location, the entry the builder returns has as
`homepage` the manifest's `homepage` when there is one (a truthy value), and otherwise
`REPOSITORY_URL`, `/tree/main/` and the entry's `path`; the builder returns an entry for
every manifest with a string `name`. For the manifest `validFields` found under
`plugins/database/postgres` the homepage is
`https://github.com/Arfni/arfni-plugins/tree/main/plugins/database/postgres`. -/
theorem homepage_rule (host : Host) (fields : JSFields) (relativePath now : String) :
    (∀ entry, buildRegistryEntry host (.obj fields) relativePath now = .ok entry →
      (toBoolean (fields.get "homepage") = true → entry.homepage = fields.get "homepage") ∧
      (toBoolean (fields.get "homepage") = false →
        entry.homepage = .str (REPOSITORY_URL ++ "/tree/main/" ++ entry.path))) ∧
    (∀ n, fields.get "name" = .str n →
      ∃ entry, buildRegistryEntry host (.obj fields) relativePath now = .ok entry) ∧
    (∀ entry, buildRegistryEntry host (.obj (manifestWith [])) "plugins/database/postgres"
        now = .ok entry →
      entry.homepage =
        .str "https://github.com/Arfni/arfni-plugins/tree/main/plugins/database/postgres") := by
  refine ⟨?_, fun n hn => buildRegistryEntry_of_name host fields n relativePath now hn, ?_⟩
  · intro entry h
    obtain ⟨-, hhome, -, -, -, -, -, hpath, -⟩ :=
      buildRegistryEntry_fields host fields relativePath now entry h
    rw [hhome, hpath]
    exact ⟨fun ht => jsOr_truthy _ _ ht, fun hf => jsOr_falsy _ _ hf⟩
  · intro entry h
    obtain ⟨-, hhome, -⟩ := buildRegistryEntry_fields host _ _ now entry h
    rw [hhome, jsOr_falsy _ _ (by decide)]
    have hp : normalizePath "plugins/database/postgres" = "plugins/database/postgres" := by
      apply String.ext
      exact (normalizePath_toList _).trans (by decide)
    rw [hp]
    rfl

/-- C13. For every manifest and every location, each of the fields `license`, `provides`,
`requires`, `tags` and `icon` of the entry the builder returns is the manifest's value
when the manifest has one (a truthy value) and otherwise its default: `MIT`,
`{frameworks: [], service_kinds: []}`, `{}`, `[]`, `icon.png`. -/
theorem optional_fields_defaults (host : Host) (fields : JSFields) (relativePath now : String) :
    (∀ entry, buildRegistryEntry host (.obj fields) relativePath now = .ok entry →
      ((toBoolean (fields.get "license") = true → entry.license = fields.get "license") ∧
        (toBoolean (fields.get "license") = false → entry.license = .str "MIT")) ∧
      ((toBoolean (fields.get "provides") = true → entry.provides = fields.get "provides") ∧
        (toBoolean (fields.get "provides") = false → entry.provides =
          .obj (.cons "frameworks" (.arr .nil) (.cons "service_kinds" (.arr .nil) .nil)))) ∧
      ((toBoolean (fields.get "requires") = true → entry.requires = fields.get "requires") ∧
        (toBoolean (fields.get "requires") = false → entry.requires = .obj .nil)) ∧
      ((toBoolean (fields.get "tags") = true → entry.tags = fields.get "tags") ∧
        (toBoolean (fields.get "tags") = false → entry.tags = .arr .nil)) ∧
      ((toBoolean (fields.get "icon") = true → entry.icon = fields.get "icon") ∧
        (toBoolean (fields.get "icon") = false → entry.icon = .str "icon.png"))) ∧
    (∀ n, fields.get "name" = .str n →
      ∃ entry, buildRegistryEntry host (.obj fields) relativePath now = .ok entry) := by
  refine ⟨?_, fun n hn => buildRegistryEntry_of_name host fields n relativePath now hn⟩
  intro entry h
  obtain ⟨-, -, hl, hp, hr, ht, hi, -, -⟩ :=
    buildRegistryEntry_fields host fields relativePath now entry h
  rw [hl, hp, hr, ht, hi]
  exact ⟨⟨fun h => jsOr_truthy _ _ h, fun h => jsOr_falsy _ _ h⟩,
    ⟨fun h => jsOr_truthy _ _ h, fun h => jsOr_falsy _ _ h⟩,
    ⟨fun h => jsOr_truthy _ _ h, fun h => jsOr_falsy _ _ h⟩,
    ⟨fun h => jsOr_truthy _ _ h, fun h => jsOr_falsy _ _ h⟩,
    ⟨fun h => jsOr_truthy _ _ h, fun h => jsOr_falsy _ _ h⟩⟩

/-- C17. For every manifest and every location, the entry the builder returns has a field
`documentation` if and only if the manifest has one (a truthy value), and the field then
holds the manifest's value; otherwise the entry has no such field. -/
theorem documentation_only_when_supplied (host : Host) (fields : JSFields)
    (relativePath now : String) :
    (∀ entry, buildRegistryEntry host (.obj fields) relativePath now = .ok entry →
      (entry.documentation.isSome = true ↔ toBoolean (fields.get "documentation") = true) ∧
      (toBoolean (fields.get "documentation") = true →
        entry.documentation = some (fields.get "documentation")) ∧
      (toBoolean (fields.get "documentation") = false → entry.documentation = none)) ∧
    (∀ n, fields.get "name" = .str n →
      ∃ entry, buildRegistryEntry host (.obj fields) relativePath now = .ok entry) := by
  refine ⟨?_, fun n hn => buildRegistryEntry_of_name host fields n relativePath now hn⟩
  intro entry h
  obtain ⟨-, -, -, -, -, -, -, -, hd⟩ :=
    buildRegistryEntry_fields host fields relativePath now entry h
  rw [hd]
  cases toBoolean (fields.get "documentation") <;> simp

/-! ## Where the entries of a scan come from -/

theorem buildRegistryEntry_path (host : Host) (manifest : JSValue)
    (relativePath now : String) (entry : RegistryEntry)
    (h : buildRegistryEntry host manifest relativePath now = .ok entry) :
    entry.path = normalizePath relativePath ∧ entry.last_updated = now := by
  unfold buildRegistryEntry at h
  simp only [bind, Except.bind, pure, Except.pure] at h
  repeat' split at h
  all_goals cases h
  all_goals exact ⟨rfl, rfl⟩

/-- Every entry of a scan was built from the manifest of one of the files, for which the
validator had returned a verdict. -/
theorem foldl_processFile_origin (host : Host) (validateOnly : Bool) :
    ∀ (files : List PluginFile) (state : ScanState),
      ∀ entry ∈ (files.foldl (processFile host validateOnly) state).plugins,
        entry ∈ state.plugins ∨ ∃ file ∈ files, ∃ manifest verdict now,
          file.loaded = .ok manifest ∧
          validatePluginManifest manifest file.filePath = .ok verdict ∧
          buildRegistryEntry host manifest file.relativePath now = .ok entry := by
  intro files
  induction files with
  | nil => intro state entry h; exact Or.inl h
  | cons file files ih =>
    intro state entry h
    rw [List.foldl_cons] at h
    rcases ih _ entry h with h1 | ⟨f, hf, hb⟩
    · rcases processFile_plugins host validateOnly state file with heq | ⟨m, v, e, hl, hv, hb, heq⟩
      · rw [heq] at h1; exact Or.inl h1
      · rw [heq] at h1
        rcases List.mem_append.1 h1 with h2 | h2
        · exact Or.inl h2
        · rw [List.mem_singleton] at h2
          exact Or.inr ⟨file, List.mem_cons_self _ _, m, v, _, hl, hv, h2 ▸ hb⟩
    · exact Or.inr ⟨f, List.mem_cons_of_mem _ hf, hb⟩

theorem normalizePath_no_backslash (relativePath : String) :
    '\\' ∉ (normalizePath relativePath).toList := by
  rw [normalizePath_toList]
  intro h
  obtain ⟨c, -, hc⟩ := List.mem_map.1 h
  by_cases hb : c = '\\'
  · rw [if_pos hb] at hc
    exact absurd hc (by decide)
  · rw [if_neg hb] at hc
    exact hb hc

theorem normalizePath_of_no_backslash (relativePath : String)
    (h : '\\' ∉ relativePath.toList) : normalizePath relativePath = relativePath := by
  apply String.ext
  have hl := normalizePath_toList relativePath
  rw [String.toList] at hl
  rw [hl]
  conv_rhs => rw [← List.map_id relativePath.data]
  apply List.map_congr_left
  intro c hc
  have hne : c ≠ '\\' := fun heq => h (heq ▸ hc)
  simp [hne]

/-- C16. For every manifest file location, the `path` of the entry built for it is the
directory of the manifest relative to the repository with every backslash replaced by
`/`: it contains no backslash, and a relative directory without backslash is kept as it
is. `plugins/database/postgres` stays, and `plugins\database\postgres` becomes it. The
same holds of every entry a scan returns, for the file it was built from. -/
theorem path_forward_slashes (host : Host) (relativePath : String) :
    (∀ manifest now entry,
      buildRegistryEntry host manifest relativePath now = .ok entry →
      entry.path = normalizePath relativePath) ∧
    (normalizePath relativePath).toList =
      relativePath.toList.map (fun c => if c = '\\' then '/' else c) ∧
    '\\' ∉ (normalizePath relativePath).toList ∧
    ('\\' ∉ relativePath.toList → normalizePath relativePath = relativePath) ∧
    normalizePath "plugins/database/postgres" = "plugins/database/postgres" ∧
    normalizePath "plugins\\database\\postgres" = "plugins/database/postgres" ∧
    (∀ validateOnly files, ∀ entry ∈ (scanLoop host validateOnly files).plugins,
      '\\' ∉ entry.path.toList ∧
      ∃ file ∈ files, entry.path = normalizePath file.relativePath) := by
  refine ⟨fun manifest now entry h =>
      (buildRegistryEntry_path host manifest relativePath now entry h).1,
    normalizePath_toList relativePath, normalizePath_no_backslash relativePath,
    normalizePath_of_no_backslash relativePath, ?_, ?_, ?_⟩
  · exact String.ext ((normalizePath_toList _).trans (by decide))
  · exact String.ext ((normalizePath_toList _).trans (by decide))
  · intro validateOnly files entry he
    rcases foldl_processFile_origin host validateOnly files _ entry he with h | h
    · exact absurd h (List.not_mem_nil _)
    · obtain ⟨file, hf, m, v, now, -, -, hb⟩ := h
      have hp := (buildRegistryEntry_path host m file.relativePath now entry hb).1
      exact ⟨hp ▸ normalizePath_no_backslash file.relativePath, file, hf, hp⟩

/-! ## The statistics of the registry -/

theorem foldl_downloads (plugins : List RegistryEntry) :
    ∀ start : Nat, plugins.foldl (fun sum p => sum + p.downloads) start =
      start + (plugins.map (fun p => p.downloads)).sum := by
  induction plugins with
  | nil => intro start; simp
  | cons p plugins ih =>
    intro start
    rw [List.foldl_cons, ih]
    simp only [List.map_cons, List.sum_cons]
    omega

/-- What `assembleRegistry` returns, in terms of the sorted array. -/
theorem assembleRegistry_ok (host : Host) (plugins : List RegistryEntry) (reads : Nat)
    (registry : Registry) (h : assembleRegistry host plugins reads = .ok registry) :
    ∃ categories sorted, generateCategoryStats plugins = .ok categories ∧
      arraySort host (compareNames host) plugins = .ok sorted ∧
      registry = {
        schema_version := "1.0.0"
        version := "1.0.0"
        last_updated := host.clock reads
        repository := REPOSITORY_URL
        categories := categories
        plugins := sorted
        stats := {
          total_plugins := sorted.length
          total_downloads := sorted.foldl (fun sum p => sum + p.downloads) 0
          categories_count := categoryKeys.length
          last_sync := host.clock (reads + 1) } } := by
  unfold assembleRegistry at h
  cases hc : generateCategoryStats plugins with
  | error e => rw [hc] at h; simp [bind, Except.bind] at h
  | ok categories =>
    cases hs : arraySort host (compareNames host) plugins with
    | error e => rw [hc, hs] at h; simp [bind, Except.bind] at h
    | ok sorted =>
      rw [hc, hs] at h
      simp only [bind, Except.bind, pure, Except.pure, Except.ok.injEq] at h
      exact ⟨categories, sorted, rfl, rfl, h.symm⟩

/-- On every engine a registry is assembled from entries whose names are strings and
whose categories convert to a property key. -/
theorem assembleRegistry_returns (host : Host) (plugins : List RegistryEntry) (reads : Nat)
    (hnames : ∀ p ∈ plugins, ∃ s, p.name = .str s)
    (hcategories : ∀ p ∈ plugins, ∃ key, toStr p.category = .ok key) :
    ∃ registry, assembleRegistry host plugins reads = .ok registry := by
  obtain ⟨sorted, hs⟩ := arraySort_returns host plugins hnames
  unfold assembleRegistry
  rw [generateCategoryStats_eq plugins hcategories, hs]
  exact ⟨_, rfl⟩

theorem buildRegistryEntry_name (host : Host) (manifest : JSValue)
    (relativePath now : String) (entry : RegistryEntry)
    (h : buildRegistryEntry host manifest relativePath now = .ok entry) :
    entryName host manifest = .ok entry.name := by
  unfold buildRegistryEntry at h
  simp only [bind, Except.bind, pure, Except.pure] at h
  repeat' split at h
  all_goals cases h
  all_goals assumption

/-- The name line 146 gives is a string when `displayName` is a string or falsy. -/
theorem entryName_str (host : Host) (manifest name : JSValue)
    (h : entryName host manifest = .ok name)
    (hd : ∀ displayName, getProp manifest "displayName" = .ok displayName →
      isStringOrFalsy displayName = true) :
    ∃ s, name = .str s := by
  unfold entryName at h
  cases hg : getProp manifest "displayName" with
  | error e => rw [hg] at h; simp [bind, Except.bind] at h
  | ok displayName =>
    have hstr := hd displayName hg
    rw [hg] at h
    simp only [bind, Except.bind, pure, Except.pure] at h
    cases ht : toBoolean displayName with
    | true =>
      rw [ht] at h
      simp only [if_true, Except.ok.injEq] at h
      subst h
      cases displayName <;> simp_all [isStringOrFalsy]
    | false =>
      rw [ht] at h
      simp only [Bool.false_eq_true, if_false] at h
      cases hn : getProp manifest "name" with
      | error e => rw [hn] at h; simp at h
      | ok value =>
        rw [hn] at h
        cases value <;> simp [throw, throwThe, MonadExceptOf.throw] at h
        exact ⟨_, h.symm⟩

/-- The entries of a scan have strings as names when no manifest has a `displayName`
that is neither a string nor falsy. -/
theorem scanLoop_names (host : Host) (validateOnly : Bool) (files : List PluginFile)
    (hd : ∀ file ∈ files, ∀ manifest displayName, file.loaded = .ok manifest →
      getProp manifest "displayName" = .ok displayName →
      isStringOrFalsy displayName = true) :
    ∀ p ∈ (scanLoop host validateOnly files).plugins, ∃ s, p.name = .str s := by
  intro p hp
  rcases foldl_processFile_origin host validateOnly files _ p hp with h | h
  · exact absurd h (List.not_mem_nil _)
  · obtain ⟨file, hf, manifest, verdict, now, hl, -, hb⟩ := h
    exact entryName_str host manifest p.name
      (buildRegistryEntry_name host manifest _ _ p hb)
      (fun displayName hg => hd file hf manifest displayName hl hg)

theorem generateRegistry_ok (host : Host) (validateOnly : Bool) (files : List PluginFile)
    (registry : Registry) (h : generateRegistry host validateOnly files = .ok registry) :
    validateOnly = false ∧
    assembleRegistry host (scanLoop host false files).plugins
      (scanLoop host false files).clockReads = .ok registry := by
  cases validateOnly with
  | true =>
    exfalso
    have hexit : ∃ code, scanPlugins host true files = .error (.exit code) := by
      unfold scanPlugins
      simp only [if_true]
      split <;> exact ⟨_, rfl⟩
    obtain ⟨code, hc⟩ := hexit
    unfold generateRegistry at h
    rw [hc] at h
    simp [bind, Except.bind] at h
  | false =>
    refine ⟨rfl, ?_⟩
    simp only [generateRegistry, scanPlugins, Bool.false_eq_true, if_false, bind, Except.bind,
      pure, Except.pure] at h
    cases ha : assembleRegistry host (scanLoop host false files).plugins
        (scanLoop host false files).clockReads with
    | error e => rw [ha] at h; simp [throw, throwThe, MonadExceptOf.throw] at h
    | ok r =>
      rw [ha] at h
      simp only [Except.ok.injEq] at h
      rw [h]

/-- C14. On every host, whatever the algorithm of its sort: in every registry assembled
from a collection of entries, the `plugins` list is a permutation of the collection,
`total_plugins` is the length of the `plugins` list, `total_downloads` is the sum of the
entries' `downloads`, which is 0 when every entry has `downloads` 0, and
`categories_count` is the number of keys of the catalog, 8; a registry is assembled
whenever the names of the entries are strings and their categories convert to a property
key. In every registry a run generates and in every registry it writes, `total_plugins`
is the length of the `plugins` list, `total_downloads` is 0, every entry a scan builds
having `downloads` 0, and `categories_count` is 8; a run that is not strict writes a
registry, with status 0, whenever no manifest has a `displayName` that is neither a
string nor falsy. The three sample entries give the statistics 3, 0 and 8. -/
theorem registry_stats (host : Host) (plugins : List RegistryEntry) (reads : Nat)
    (files : List PluginFile) :
    (∀ registry, assembleRegistry host plugins reads = .ok registry →
      registry.plugins.Perm plugins ∧
      registry.stats.total_plugins = registry.plugins.length ∧
      registry.plugins.length = plugins.length ∧
      registry.stats.total_downloads = (registry.plugins.map (fun p => p.downloads)).sum ∧
      registry.stats.total_downloads = (plugins.map (fun p => p.downloads)).sum ∧
      ((∀ p ∈ plugins, p.downloads = 0) → registry.stats.total_downloads = 0) ∧
      registry.stats.categories_count = categoryKeys.length ∧
      registry.stats.categories_count = 8) ∧
    ((∀ p ∈ plugins, ∃ s, p.name = .str s) →
      (∀ p ∈ plugins, ∃ key, toStr p.category = .ok key) →
      ∃ registry, assembleRegistry host plugins reads = .ok registry) ∧
    (∀ validateOnly registry, generateRegistry host validateOnly files = .ok registry →
      registry.stats.total_plugins = registry.plugins.length ∧
      registry.stats.total_downloads = 0 ∧
      registry.stats.categories_count = 8) ∧
    (∀ validateOnly registry, (runScript host validateOnly files).written = some registry →
      registry.stats.total_plugins = registry.plugins.length ∧
      registry.stats.total_downloads = 0 ∧
      registry.stats.categories_count = 8) ∧
    ((∀ file ∈ files, ∀ manifest displayName, file.loaded = .ok manifest →
        getProp manifest "displayName" = .ok displayName →
        isStringOrFalsy displayName = true) →
      ∃ registry, generateRegistry host false files = .ok registry ∧
        runScript host false files = { exitCode := 0, written := some registry }) ∧
    (assembleRegistry sampleHost sampleEntries 0).map
      (fun registry => (registry.stats.total_plugins, registry.stats.total_downloads,
        registry.stats.categories_count, registry.plugins.map (fun p => p.name))) =
      .ok (3, 0, 8, [.str "Mysql", .str "Postgres", .str "Redis"]) := by
  have hassemble : ∀ (l : List RegistryEntry) (r : Nat) (registry : Registry),
      assembleRegistry host l r = .ok registry →
      registry.plugins.Perm l ∧
      registry.stats.total_plugins = registry.plugins.length ∧
      registry.plugins.length = l.length ∧
      registry.stats.total_downloads = (registry.plugins.map (fun p => p.downloads)).sum ∧
      registry.stats.total_downloads = (l.map (fun p => p.downloads)).sum ∧
      ((∀ p ∈ l, p.downloads = 0) → registry.stats.total_downloads = 0) ∧
      registry.stats.categories_count = categoryKeys.length ∧
      registry.stats.categories_count = 8 := by
    intro l r registry h
    obtain ⟨categories, sorted, -, hs, rfl⟩ := assembleRegistry_ok host l r registry h
    have hperm := arraySort_perm host (compareNames host) l sorted hs
    have hsum : sorted.foldl (fun sum p => sum + p.downloads) 0 =
        (sorted.map (fun p => p.downloads)).sum := by
      rw [foldl_downloads]; simp
    refine ⟨hperm, rfl, hperm.length_eq, hsum, ?_, ?_, rfl, rfl⟩
    · show sorted.foldl (fun sum p => sum + p.downloads) 0 = _
      rw [hsum]
      exact (hperm.map _).sum_eq
    · intro hzero
      show sorted.foldl (fun sum p => sum + p.downloads) 0 = 0
      rw [hsum]
      apply List.sum_eq_zero
      intro x hx
      obtain ⟨p, hp, rfl⟩ := List.mem_map.1 hx
      exact hzero p (hperm.subset hp)
  have hgenerate : ∀ validateOnly registry,
      generateRegistry host validateOnly files = .ok registry →
      registry.stats.total_plugins = registry.plugins.length ∧
      registry.stats.total_downloads = 0 ∧
      registry.stats.categories_count = 8 := by
    intro validateOnly registry h
    obtain ⟨-, ha⟩ := generateRegistry_ok host validateOnly files registry h
    obtain ⟨-, h1, -, -, -, h4, -, h6⟩ := hassemble _ _ registry ha
    exact ⟨h1, h4 (fun p hp => (scanLoop_entries host false files p hp).2), h6⟩
  refine ⟨hassemble plugins reads, assembleRegistry_returns host plugins reads, hgenerate,
    ?_, ?_, by decide⟩
  · intro validateOnly registry h
    apply hgenerate validateOnly
    unfold runScript at h
    cases hg : generateRegistry host validateOnly files with
    | error abort =>
      rw [hg] at h
      cases abort <;> simp at h
    | ok generated =>
      rw [hg] at h
      simp only [Option.some.injEq] at h
      rw [h]
  · intro hd
    obtain ⟨registry, hr⟩ := assembleRegistry_returns host
      (scanLoop host false files).plugins (scanLoop host false files).clockReads
      (scanLoop_names host false files hd)
      (fun p hp => (scanLoop_entries host false files p hp).1)
    have hg : generateRegistry host false files = .ok registry := by
      simp only [generateRegistry, scanPlugins, Bool.false_eq_true, if_false, bind,
        Except.bind, pure, Except.pure, hr]
    refine ⟨registry, hg, ?_⟩
    unfold runScript
    rw [hg]

/-! ## The counters of the scan -/

/-- A turn of the loop counts the file as valid exactly when it passes validation. -/
theorem processFile_validCount (host : Host) (validateOnly : Bool) (state : ScanState)
    (file : PluginFile) :
    (processFile host validateOnly state file).validCount =
      state.validCount + if passesValidation file then 1 else 0 := by
  cases hp : passesValidation file
  · unfold passesValidation at hp
    unfold processFile
    cases hl : file.loaded with
    | error e => rfl
    | ok manifest =>
      rw [hl] at hp
      simp only [] at hp ⊢
      cases hv : validatePluginManifest manifest file.filePath with
      | error e => rfl
      | ok verdict =>
        rw [hv] at hp
        simp only [] at hp ⊢
        simp only [hp, Bool.not_false, Bool.true_and, if_true]
        cases validateOnly
        · simp only [Bool.false_eq_true, if_false]
          cases buildRegistryEntry host manifest file.relativePath
            (host.clock state.clockReads) <;> rfl
        · rfl
  · obtain ⟨manifest, verdict, hl, hv, hvalid⟩ := (passesValidation_iff file).1 hp
    rw [processFile_of_passes host validateOnly state file manifest verdict hl hv hvalid]
    cases buildRegistryEntry host manifest file.relativePath
      (host.clock state.clockReads) <;> rfl

/-- After the loop, `validCount` is the number of files that passed validation. -/
theorem scanLoop_validCount (host : Host) (validateOnly : Bool) (files : List PluginFile) :
    (scanLoop host validateOnly files).validCount = files.countP passesValidation := by
  have hfold : ∀ (l : List PluginFile) (state : ScanState),
      (l.foldl (processFile host validateOnly) state).validCount =
        state.validCount + l.countP passesValidation := by
    intro l
    induction l with
    | nil => intro state; simp
    | cons file l ih =>
      intro state
      rw [List.foldl_cons, ih, processFile_validCount, List.countP_cons]
      omega
  unfold scanLoop
  rw [hfold]
  simp

/-- C19, the failing input. In permissive mode the single file whose manifest lacks
`name` is counted twice, as invalid by line 127 and again by the `catch` clause after
line 146 threw: `validCount + invalidCount` is 2 for one file. A file whose manifest has
the number 123 as `name` passes validation and is counted both as valid and as invalid,
in either mode. -/
theorem scan_counts_file_twice :
    [postgresFile manifestWithoutName].length = 1 ∧
    (scanLoop sampleHost false [postgresFile manifestWithoutName]).validCount = 0 ∧
    (scanLoop sampleHost false [postgresFile manifestWithoutName]).invalidCount = 2 ∧
    passesValidation (postgresFile manifestWithNumericName) = true ∧
    (scanLoop sampleHost true [postgresFile manifestWithNumericName]).validCount = 1 ∧
    (scanLoop sampleHost true [postgresFile manifestWithNumericName]).invalidCount = 1 ∧
    (scanLoop sampleHost false [postgresFile manifestWithNumericName]).validCount = 1 ∧
    (scanLoop sampleHost false [postgresFile manifestWithNumericName]).invalidCount = 1 := by
  decide

/-! ## The sum of the counts -/

theorem sum_indicator_of_nodup (key : String) :
    ∀ l : List String, l.Nodup →
      (l.map (fun k => if key = k then 1 else 0)).sum = if key ∈ l then 1 else 0 := by
  intro l
  induction l with
  | nil => intro _; rfl
  | cons a l ih =>
    intro hnd
    rw [List.nodup_cons] at hnd
    simp only [List.map_cons, List.sum_cons, ih hnd.2, List.mem_cons]
    by_cases ha : key = a
    · subst ha
      simp [hnd.1]
    · simp [ha]

theorem sum_countInCategory (plugins : List RegistryEntry) :
    (categoryKeys.map (countInCategory plugins)).sum = plugins.countP hasCatalogCategory := by
  induction plugins with
  | nil =>
    apply List.sum_eq_zero
    intro x hx
    obtain ⟨key, -, rfl⟩ := List.mem_map.1 hx
    rfl
  | cons p plugins ih =>
    have hsplit : categoryKeys.map (countInCategory (p :: plugins)) =
        categoryKeys.map (fun key => countInCategory plugins key +
          if toStr p.category = .ok key then 1 else 0) :=
      List.map_congr_left (fun key _ => countInCategory_cons p plugins key)
    rw [hsplit, List.sum_map_add, ih, List.countP_cons]
    congr 1
    unfold hasCatalogCategory
    cases hk : toStr p.category with
    | error e => simp
    | ok key =>
      have := sum_indicator_of_nodup key categoryKeys categoryKeys_nodup
      simp only [Except.ok.injEq]
      rw [this]
      by_cases hm : key ∈ categoryKeys
      · have hc : categoryKeys.contains key = true := by simpa using hm
        rw [if_pos hm, if_pos hc]
      · have hc : ¬ (categoryKeys.contains key = true) := by simpa using hm
        rw [if_neg hm, if_neg hc]

/-- C20, the failing input. For every collection of entries whose categories convert to a
property key, the counts `generateCategoryStats` returns add up to the number of entries
whose category is a key of the catalog, which is at most the number of entries. It is
not all of them for the entries of valid manifests: the manifest with `category:
constructor` passes validation, its entry is in the registry (`total_plugins` is 1) and
is counted under no category (the counts add up to 0). -/
theorem counts_sum_misses_valid_entry :
    (∀ plugins : List RegistryEntry, (∀ p ∈ plugins, ∃ key, toStr p.category = .ok key) →
      ∃ categories, generateCategoryStats plugins = .ok categories ∧
        (categories.map (fun c => c.2.count)).sum = plugins.countP hasCatalogCategory ∧
        (categories.map (fun c => c.2.count)).sum ≤ plugins.length) ∧
    passesValidation (postgresFile (manifestWithCategory (.str "constructor"))) = true ∧
    (generateRegistry sampleHost false
        [postgresFile (manifestWithCategory (.str "constructor"))]).map
      (fun registry => (registry.stats.total_plugins,
        (registry.categories.map (fun c => c.2.count)).sum)) = .ok (1, 0) := by
  refine ⟨?_, by decide, by decide⟩
  intro plugins h
  refine ⟨_, generateCategoryStats_eq plugins h, ?_⟩
  have hcounts : (annotate (countInCategory plugins)).map (fun c => c.2.count) =
      categoryKeys.map (countInCategory plugins) := by
    simp [annotate, categoryKeys, List.map_map, Function.comp_def]
  rw [hcounts, sum_countInCategory]
  exact ⟨rfl, List.countP_le_length _⟩

/-! ## Two runs with different clocks -/

theorem entryName_clock (host : Host) (clock1 clock2 : Nat → String) (manifest : JSValue) :
    entryName (withClock host clock1) manifest =
      entryName (withClock host clock2) manifest := rfl

theorem buildRegistryEntry_clock (host : Host) (clock1 clock2 : Nat → String)
    (manifest : JSValue) (relativePath now1 now2 : String) :
    (buildRegistryEntry (withClock host clock1) manifest relativePath now1).map
        eraseEntryTime =
      (buildRegistryEntry (withClock host clock2) manifest relativePath now2).map
        eraseEntryTime := by
  unfold buildRegistryEntry
  rw [entryName_clock host clock1 clock2]
  simp only [bind, Except.bind, pure, Except.pure]
  repeat' split
  all_goals rfl

theorem processFile_clock (host : Host) (clock1 clock2 : Nat → String)
    (validateOnly : Bool) (state1 state2 : ScanState)
    (file : PluginFile) (h : eraseScanTimes state1 = eraseScanTimes state2) :
    eraseScanTimes (processFile (withClock host clock1) validateOnly state1 file) =
      eraseScanTimes
        (processFile (withClock host clock2) validateOnly state2 file) := by
  obtain ⟨p1, v1, i1, c1⟩ := state1
  obtain ⟨p2, v2, i2, c2⟩ := state2
  simp only [eraseScanTimes, ScanState.mk.injEq] at h
  obtain ⟨hp, rfl, rfl, rfl⟩ := h
  unfold processFile
  cases file.loaded with
  | error e => simp [eraseScanTimes, hp]
  | ok manifest =>
    simp only []
    cases validatePluginManifest manifest file.filePath with
    | error e => simp [eraseScanTimes, hp]
    | ok verdict =>
      simp only []
      have hb := buildRegistryEntry_clock host clock1 clock2 manifest
        file.relativePath (clock1 c1) (clock2 c1)
      cases hb1 : buildRegistryEntry (withClock host clock1) manifest
          file.relativePath (clock1 c1) with
      | error e1 =>
        cases hb2 : buildRegistryEntry (withClock host clock2) manifest
            file.relativePath (clock2 c1) with
        | error e2 =>
          rw [hb1, hb2] at hb
          simp only [Except.map, Except.error.injEq] at hb
          cases verdict.valid <;> cases validateOnly <;> simp [eraseScanTimes, hp]
        | ok b2 => rw [hb1, hb2] at hb; simp [Except.map] at hb
      | ok b1 =>
        cases hb2 : buildRegistryEntry (withClock host clock2) manifest
            file.relativePath (clock2 c1) with
        | error e2 => rw [hb1, hb2] at hb; simp [Except.map] at hb
        | ok b2 =>
          rw [hb1, hb2] at hb
          simp only [Except.map, Except.ok.injEq] at hb
          cases verdict.valid <;> cases validateOnly <;> simp [eraseScanTimes, hp, hb]

theorem scanLoop_clock (host : Host) (clock1 clock2 : Nat → String)
    (validateOnly : Bool) (files : List PluginFile) :
    eraseScanTimes (scanLoop (withClock host clock1) validateOnly files) =
      eraseScanTimes (scanLoop (withClock host clock2) validateOnly files) := by
  have hfold : ∀ (l : List PluginFile) (state1 state2 : ScanState),
      eraseScanTimes state1 = eraseScanTimes state2 →
      eraseScanTimes
          (l.foldl (processFile (withClock host clock1) validateOnly) state1) =
        eraseScanTimes
          (l.foldl (processFile (withClock host clock2) validateOnly) state2) := by
    intro l
    induction l with
    | nil => intro state1 state2 h; exact h
    | cons file l ih =>
      intro state1 state2 h
      rw [List.foldl_cons, List.foldl_cons]
      exact ih _ _ (processFile_clock host clock1 clock2 validateOnly
        state1 state2 file h)
  exact hfold files _ _ rfl

theorem foldlM_countPlugin_erase (plugins : List RegistryEntry) :
    ∀ categories : List (String × CategoryStats),
      (plugins.map eraseEntryTime).foldlM countPlugin categories =
        plugins.foldlM countPlugin categories := by
  induction plugins with
  | nil => intro categories; rfl
  | cons p plugins ih =>
    intro categories
    rw [List.map_cons, List.foldlM_cons, List.foldlM_cons]
    have hstep : countPlugin categories (eraseEntryTime p) = countPlugin categories p := rfl
    rw [hstep]
    cases countPlugin categories p with
    | error e => rfl
    | ok next => exact ih next

theorem generateCategoryStats_erase (plugins : List RegistryEntry) :
    generateCategoryStats (plugins.map eraseEntryTime) = generateCategoryStats plugins :=
  foldlM_countPlugin_erase plugins _

theorem assembleRegistry_clock (host : Host) (clock1 clock2 : Nat → String)
    (plugins1 plugins2 : List RegistryEntry) (reads : Nat)
    (h : plugins1.map eraseEntryTime = plugins2.map eraseEntryTime) :
    (assembleRegistry (withClock host clock1) plugins1 reads).map eraseTimes =
      (assembleRegistry (withClock host clock2) plugins2 reads).map eraseTimes := by
  have hstats : generateCategoryStats plugins1 = generateCategoryStats plugins2 := by
    rw [← generateCategoryStats_erase plugins1, h, generateCategoryStats_erase]
  have hsort : (arraySort (withClock host clock1) (compareNames (withClock host clock1))
        plugins1).map (List.map eraseEntryTime) =
      (arraySort (withClock host clock2) (compareNames (withClock host clock2))
        plugins2).map (List.map eraseEntryTime) := by
    have e1 := arraySort_map (withClock host clock1) (compareNames (withClock host clock1))
      (compareNames (withClock host clock1)) eraseEntryTime (fun _ _ => rfl) plugins1
    have e2 := arraySort_map (withClock host clock2) (compareNames (withClock host clock2))
      (compareNames (withClock host clock2)) eraseEntryTime (fun _ _ => rfl) plugins2
    rw [← e1, ← e2, h]
    rfl
  unfold assembleRegistry
  rw [hstats]
  cases generateCategoryStats plugins2 with
  | error e => rfl
  | ok categories =>
    simp only [bind, Except.bind, pure, Except.pure]
    cases hs1 : arraySort (withClock host clock1) (compareNames (withClock host clock1))
        plugins1 with
    | error e1 =>
      cases hs2 : arraySort (withClock host clock2) (compareNames (withClock host clock2))
        plugins2 with
      | error e2 =>
        rw [hs1, hs2] at hsort
        simp only [Except.map, Except.error.injEq] at hsort
        simp [Except.map, hsort]
      | ok s2 => rw [hs1, hs2] at hsort; simp [Except.map] at hsort
    | ok s1 =>
      cases hs2 : arraySort (withClock host clock2) (compareNames (withClock host clock2))
        plugins2 with
      | error e2 => rw [hs1, hs2] at hsort; simp [Except.map] at hsort
      | ok s2 =>
        rw [hs1, hs2] at hsort
        simp only [Except.map, Except.ok.injEq] at hsort
        have hlen : s1.length = s2.length := by
          have := congrArg List.length hsort
          simpa using this
        have hdown : s1.map (fun p => p.downloads) = s2.map (fun p => p.downloads) := by
          have := congrArg (List.map (fun p : RegistryEntry => p.downloads)) hsort
          simpa [List.map_map, Function.comp_def, eraseEntryTime] using this
        simp only [Except.map, eraseTimes, Except.ok.injEq, Registry.mk.injEq,
          RegistryStats.mk.injEq, true_and, and_true]
        refine ⟨hsort, hlen, ?_⟩
        rw [foldl_downloads, foldl_downloads, hdown]

/-- C18. Two runs of the generation over the same files, on hosts that differ only in
what their clocks read, end the same way, and when they return a registry the two
registries are equal once the `last_updated` of the entries, the `last_updated` of the
document and `stats.last_sync` are erased; the two runs of the script exit with the same
status. -/
theorem generation_deterministic_modulo_time (host : Host) (clock1 clock2 : Nat → String)
    (validateOnly : Bool) (files : List PluginFile) :
    (generateRegistry (withClock host clock1) validateOnly files).map eraseTimes =
      (generateRegistry (withClock host clock2) validateOnly files).map
        eraseTimes ∧
    (runScript (withClock host clock1) validateOnly files).exitCode =
      (runScript (withClock host clock2) validateOnly files).exitCode ∧
    (runScript (withClock host clock1) validateOnly files).written.map eraseTimes =
      (runScript (withClock host clock2) validateOnly files).written.map
        eraseTimes := by
  have hscan := scanLoop_clock host clock1 clock2 validateOnly files
  have hgen : (generateRegistry (withClock host clock1) validateOnly files).map
        eraseTimes =
      (generateRegistry (withClock host clock2) validateOnly files).map
        eraseTimes := by
    generalize hs1 : scanLoop (withClock host clock1) validateOnly files = st1
      at hscan
    generalize hs2 : scanLoop (withClock host clock2) validateOnly files = st2
      at hscan
    obtain ⟨p1, v1, i1, c1⟩ := st1
    obtain ⟨p2, v2, i2, c2⟩ := st2
    simp only [eraseScanTimes, ScanState.mk.injEq] at hscan
    obtain ⟨hp, rfl, rfl, rfl⟩ := hscan
    have ha := assembleRegistry_clock host clock1 clock2 p1 p2 c1 hp
    unfold generateRegistry scanPlugins
    rw [hs1, hs2]
    cases validateOnly with
    | true =>
      simp only [if_true]
      split <;> rfl
    | false =>
      simp only [Bool.false_eq_true, if_false, bind, Except.bind, pure, Except.pure]
      cases h1 : assembleRegistry (withClock host clock1) p1 c1 with
      | error e1 =>
        cases h2 : assembleRegistry (withClock host clock2) p2 c1 with
        | error e2 =>
          rw [h1, h2] at ha
          simp only [Except.map, Except.error.injEq] at ha
          simp [Except.map, throw, throwThe, MonadExceptOf.throw, ha]
        | ok r2 => rw [h1, h2] at ha; simp [Except.map] at ha
      | ok r1 =>
        cases h2 : assembleRegistry (withClock host clock2) p2 c1 with
        | error e2 => rw [h1, h2] at ha; simp [Except.map] at ha
        | ok r2 =>
          rw [h1, h2] at ha
          simp only [Except.map, Except.ok.injEq] at ha
          simp [Except.map, ha]
  refine ⟨hgen, ?_, ?_⟩
  · unfold runScript
    cases h1 : generateRegistry (withClock host clock1) validateOnly files with
    | error a1 =>
      cases h2 : generateRegistry (withClock host clock2) validateOnly files with
      | error a2 =>
        rw [h1, h2] at hgen
        simp only [Except.map, Except.error.injEq] at hgen
        subst hgen
        rfl
      | ok r2 => rw [h1, h2] at hgen; simp [Except.map] at hgen
    | ok r1 =>
      cases h2 : generateRegistry (withClock host clock2) validateOnly files with
      | error a2 => rw [h1, h2] at hgen; simp [Except.map] at hgen
      | ok r2 => rfl
  · unfold runScript
    cases h1 : generateRegistry (withClock host clock1) validateOnly files with
    | error a1 =>
      cases h2 : generateRegistry (withClock host clock2) validateOnly files with
      | error a2 =>
        rw [h1, h2] at hgen
        simp only [Except.map, Except.error.injEq] at hgen
        subst hgen
        cases a1 <;> rfl
      | ok r2 => rw [h1, h2] at hgen; simp [Except.map] at hgen
    | ok r1 =>
      cases h2 : generateRegistry (withClock host clock2) validateOnly files with
      | error a2 => rw [h1, h2] at hgen; simp [Except.map] at hgen
      | ok r2 =>
        rw [h1, h2] at hgen
        simp only [Except.map, Except.ok.injEq] at hgen
        simp [hgen]

/-- C18 at two files and two clocks, one that stands still and one that ticks: the sort
exchanges the two entries, the timestamps of the two registries differ and everything
else is equal. -/
theorem generation_deterministic_modulo_time_witness :
    (generateRegistry tickingHost false [zetaFile, postgresFile (manifestWith [])]).map
      (fun registry => (registry.last_updated, registry.stats.last_sync,
        registry.plugins.map (fun p => (p.name, p.last_updated)))) =
      .ok ("||", "|||", [(.str "Postgres", "|"), (.str "Zeta", "")]) ∧
    (generateRegistry sampleHost false [zetaFile, postgresFile (manifestWith [])]).map
      (fun registry => (registry.last_updated, registry.stats.last_sync,
        registry.plugins.map (fun p => (p.name, p.last_updated)))) =
      .ok ("2024-01-01T00:00:00.000Z", "2024-01-01T00:00:00.000Z",
        [(.str "Postgres", "2024-01-01T00:00:00.000Z"),
          (.str "Zeta", "2024-01-01T00:00:00.000Z")]) ∧
    (generateRegistry tickingHost false [zetaFile, postgresFile (manifestWith [])]).map
        eraseTimes =
      (generateRegistry sampleHost false [zetaFile, postgresFile (manifestWith [])]).map
        eraseTimes :=
  ⟨by decide, by decide,
    (generation_deterministic_modulo_time sampleHost tickingHost.clock sampleHost.clock
      false [zetaFile, postgresFile (manifestWith [])]).1⟩

end GenerateRegistry
